import Mathlib

/-!
Verification development for `magefile.go`.

A shallow embedding of the configuration resolver (`init`, `exportEnv`,
`config`, `config.Export`), the backend selector (`InitBackend`,
`bucketExists`), the state archiver (`SaveBackend`, `uploadTerraformState`)
and the artifact writer (`download`, `save`) of `src/magefile.go`, followed
by theorems about them.

Conventions.

* The process environment is Go's runtime environment block on Unix: a list
  of strings as handed over by the operating system, normally of the form
  `name=value`.  The functions `copyenv`, `Environ`, `LookupEnv` and `Setenv`
  follow package `syscall` (`env_unix.go`).
* `env.Parse` is the parser of `github.com/caarlos0/env`: it reads every
  variable with `os.LookupEnv`, so a variable set to the empty string counts
  as set.
* Standard output is the text printed so far.
* A Go function that may stop the process returns a `Result`.
* External services (AWS session, S3, the filesystem, HTTP) are oracles that
  are passed in; every call made is recorded in a list of `Event`s.
-/

namespace Magefile

/-! ## Package `strings` -/

/-- Model of `strings.ToUpper` on strings whose letters are ASCII: every
character `a`..`z` is replaced by `A`..`Z`, everything else is kept.  The
source applies it to a normalised `AppEnv` only, which is `"development"` or
an ASCII spelling of `production`. -/
def ToUpper (s : String) : String := ⟨s.data.map Char.toUpper⟩

/-- Model of `strings.EqualFold s t` for a `t` made of ASCII letters other
than `k` and `s` (the source passes the literal `"production"`): for such a
`t` Unicode simple case folding relates a character of `t` to its two ASCII
spellings only, so the strings are equal under folding exactly when they are
equal after mapping `A`..`Z` to `a`..`z`. -/
def EqualFold (s t : String) : Bool :=
  s.data.map Char.toLower == t.data.map Char.toLower

/-- Model of `strings.HasPrefix`. -/
def HasPrefix (s pre : String) : Bool := pre.data.isPrefixOf s.data

/-- Splits a character list at its first `=`: the part before it and the
part after it, or `none` when there is no `=`. -/
def cutEq : List Char → Option (List Char × List Char)
  | [] => none
  | c :: cs =>
    if c = '=' then some ([], cs)
    else match cutEq cs with
      | none => none
      | some (k, v) => some (c :: k, v)

/-- Model of `strings.SplitN(e, "=", 2)`: the whole string when it holds no
`=`, otherwise the text before the first `=` and the text after it. -/
def SplitN (e : String) : List String :=
  match cutEq e.data with
  | none => [e]
  | some (k, v) => [⟨k⟩, ⟨v⟩]

/-- Splits a character list at every occurrence of `sep`. -/
def splitChars (sep : Char) : List Char → List (List Char)
  | [] => [[]]
  | c :: cs =>
    if c = sep then [] :: splitChars sep cs
    else match splitChars sep cs with
      | [] => [[c]]
      | w :: ws => (c :: w) :: ws

/-- Model of `strings.Split(s, ",")`. -/
def Split (s : String) : List String := (splitChars ',' s.data).map String.mk

/-- Joins character lists with `sep` between them. -/
def joinChars (sep : Char) : List (List Char) → List Char
  | [] => []
  | [w] => w
  | w :: w2 :: ws => w ++ sep :: joinChars sep (w2 :: ws)

/-- Model of `strings.Join(xs, ",")`. -/
def Join (xs : List String) : String := ⟨joinChars ',' (xs.map String.data)⟩

/-- Go's `len(s)`: the number of bytes of the string. -/
def len (s : String) : Nat := s.utf8ByteSize

/-- Go's `key[n:]` for an `n` that falls right after a matched prefix of
`n` characters. -/
def sliceFrom (s : String) (n : Nat) : String := ⟨s.data.drop n⟩

/-- Rendering of `%d` for a length. -/
def fmtInt (n : Nat) : String := Nat.repr n

/-! ## Package `os` / `syscall`: the process environment -/

/-- The name of an environment entry: the text before its first `=`. -/
def entryKey (e : String) : Option String :=
  match cutEq e.data with
  | none => none
  | some (k, _) => some ⟨k⟩

/-- The value of an environment entry: the text after its first `=`. -/
def entryValue (e : String) : Option String :=
  match cutEq e.data with
  | none => none
  | some (_, v) => some ⟨v⟩

/-- Worker of `copyenv`: `seen` are the names already met. -/
def copyenvFrom (seen : List String) : List String → List String
  | [] => []
  | s :: rest =>
    match entryKey s with
    | none => s :: copyenvFrom seen rest
    | some key =>
      if key ∈ seen then "" :: copyenvFrom seen rest
      else s :: copyenvFrom (key :: seen) rest

/-- Model of `syscall.copyenv`, run once before the first access: the first
mention of a name is kept, later entries of the same name are cleared to the
empty string, entries without `=` are left alone. -/
def copyenv (envs : List String) : List String := copyenvFrom [] envs

/-- Model of `os.Environ`: a copy of the non-empty entries. -/
def Environ (envs : List String) : List String := envs.filter (fun s => s != "")

/-- First entry of the given name, its value. -/
def findValue (key : String) : List String → Option String
  | [] => none
  | s :: rest =>
    if entryKey s = some key then entryValue s else findValue key rest

/-- Model of `os.LookupEnv`: `none` for the empty name and for a name that is
not set, otherwise the value of the entry of that name. -/
def LookupEnv (envs : List String) (key : String) : Option String :=
  if key = "" then none else findValue key envs

/-- Replaces the entry named `key` by `kv`, or appends `kv` when no entry
has that name. -/
def setEntry (key kv : String) : List String → List String
  | [] => [kv]
  | s :: rest =>
    if entryKey s = some key then kv :: rest else s :: setEntry key kv rest

/-- The check at the head of `syscall.Setenv`: the name is not empty and
holds neither `=` nor NUL, the value holds no NUL. -/
def setenvValid (key value : String) : Bool :=
  key.data != [] && !key.data.contains '=' && !key.data.contains (Char.ofNat 0)
    && !value.data.contains (Char.ofNat 0)

/-- Model of `os.Setenv`: fails with `EINVAL`, rendered
`setenv: invalid argument`, when `setenvValid` fails, otherwise stores
`key=value` over the entry of that name or at the end. -/
def Setenv (key value : String) (envs : List String) : Except String (List String) :=
  if setenvValid key value then .ok (setEntry key (key ++ "=" ++ value) envs)
  else .error "setenv: invalid argument"

/-! ## Process state and results -/

/-- State of the process: environment block and text printed so far. -/
structure Proc where
  envs : List String
  stdout : String
deriving DecidableEq, Repr

/-- How a computation ends: it returns a value, it exits with a status
(`os.Exit`), or it stops with a run-time panic. -/
inductive Result (α : Type) where
  | ok (a : α) (p : Proc)
  | exit (code : Nat) (p : Proc)
  | panic (p : Proc)
deriving DecidableEq, Repr

/-- Model of `fmt.Printf` / `fmt.Println` output: the text is appended. -/
def Proc.print (p : Proc) (text : String) : Proc :=
  { p with stdout := p.stdout ++ text }

/-! ## `config` and `env.Parse` -/

/-- The record `config` of the source. -/
structure config where
  ProjectName : String
  AlertEmail : String
  AppEnv : String
  Region : String
  SamlProviderArn : String
  SecOpsAccountIDs : List String
  InventoryVersion : String
  AnsibleVersion : String
  NetworkVersion : String
  SecretsVersion : String
deriving DecidableEq, Repr

deriving instance DecidableEq for Except

/-- Model of `getOr` of package `env`: the value when the variable is set,
the `envDefault` otherwise. -/
def getOr (envs : List String) (key defaultValue : String) : String :=
  match LookupEnv envs key with
  | some v => v
  | none => defaultValue

/-- Model of `getRequired` of package `env`. -/
def getRequired (envs : List String) (key : String) : Except String String :=
  match LookupEnv envs key with
  | some v => .ok v
  | none => .error ("required environment variable \"" ++ key ++ "\" is not set")

/-- The messages of the required fields that are not set, in field order. -/
def requiredErrors (envs : List String) : List String :=
  (match getRequired envs "projectName" with | .ok _ => [] | .error m => [m]) ++
  (match getRequired envs "alertEmail" with | .ok _ => [] | .error m => [m])

/-- Model of `env.Parse(&cfg)` on a zero `cfg`, following the struct tags of
`config` (lines 90-101): a `required` field wants its variable set, any other
field takes the variable's value or its `envDefault`; an empty value leaves
the field at its zero value; the `[]string` field is the value split at `,`.
The error gathers the messages of the missing required variables. -/
def Parse (envs : List String) : Except String config :=
  match requiredErrors envs with
  | [] =>
    .ok { ProjectName := getOr envs "projectName" "",
          AlertEmail := getOr envs "alertEmail" "",
          AppEnv := getOr envs "CIRCLE_BRANCH" "sandbox",
          Region := getOr envs "region" "us-east-1",
          SamlProviderArn := getOr envs "SAML_PROVIDER_ARN" "",
          SecOpsAccountIDs :=
            (let v := getOr envs "secopsAccounts" ""
             if v = "" then [] else Split v),
          InventoryVersion := getOr envs "inventoryVersion" "v0.1.7",
          AnsibleVersion := getOr envs "ansibleVersion" "v0.0.28",
          NetworkVersion := getOr envs "networkVersion" "v0.6.10",
          SecretsVersion := getOr envs "secretsVersion" "v0.0.3rc" }
  | errs => .error (String.intercalate ". " errs)

/-! ## `init`, `exportEnv`, `config.Export` -/

/-- The constant `statusBadEnv`. -/
def statusBadEnv : Nat := 1

/-- Lines 40-42 and 61-63 of the source: an `AppEnv` that is not
`production` under case folding becomes `development`; one that is stays as
it was read. -/
def normalise (c : config) : config :=
  if !EqualFold c.AppEnv "production" then { c with AppEnv := "development" } else c

/-- The loop of `exportEnv` over the snapshot taken by `os.Environ()`.
It returns `none` for a `nil` error and `some msg` for the error built with
`fmt.Errorf`; `parts[1]` on an entry without `=` is an index out of range. -/
def exportEnvLoop (env : String) : List String → Proc → Result (Option String)
  | [], p => .ok none p
  | e :: rest, p =>
    match SplitN e with
    | [key, value] =>
      if !HasPrefix key (env ++ "_") then exportEnvLoop env rest p
      else
        match Setenv (sliceFrom key (env.length + 1)) value p.envs with
        | .error err =>
          .ok (some ("failed to read " ++ e ++ ", when setting "
                ++ sliceFrom key (env.length + 1) ++ ": " ++ err)) p
        | .ok envs =>
          exportEnvLoop env rest
            ({ p with envs := envs }.print
              ("Exported " ++ sliceFrom key (env.length + 1)
                ++ " environment variable, value length=" ++ fmtInt (len value) ++ "\n"))
    | _ => .panic p

/-- The function `exportEnv`. -/
def exportEnv (appenv : String) (p : Proc) : Result (Option String) :=
  let env := ToUpper appenv
  exportEnvLoop env (Environ p.envs) p

/-- The map literal `vars` of `config.Export`, in the order of the source. -/
def config.vars (c : config) : List (String × String) :=
  [ ("TF_VAR_env", c.AppEnv),
    ("TF_VAR_email_address", c.AlertEmail),
    ("TF_VAR_project_name", c.ProjectName),
    ("TF_VAR_region", c.Region),
    ("TF_VAR_secops_accounts", Join c.SecOpsAccountIDs),
    ("TF_VAR_saml_provider_arn", c.SamlProviderArn),
    ("AWS_REGION", c.Region) ]

/-- The names set by `config.Export`, in the order of the source. -/
def exportNames : List String :=
  [ "TF_VAR_env", "TF_VAR_email_address", "TF_VAR_project_name", "TF_VAR_region",
    "TF_VAR_secops_accounts", "TF_VAR_saml_provider_arn", "AWS_REGION" ]

/-- One iteration of the loop of `config.Export` for the map entry `k`:
`os.Setenv` (its error is dropped by the source) and the log line. -/
def exportStep (c : config) (p : Proc) (k : String) : Proc :=
  match c.vars.lookup k with
  | none => p
  | some v =>
    { p with envs := (match Setenv k v p.envs with | .ok envs => envs | .error _ => p.envs) }.print
      ("Exported " ++ k ++ " environment variable, value length=" ++ fmtInt (len v) ++ "\n")

/-- The method `config.Export`.  Go visits the entries of a map in an
unspecified order: `order` is the sequence in which the keys of `vars` are
visited (in a run of the program, a permutation of `exportNames`). -/
def config.Export (c : config) (order : List String) (p : Proc) : Proc :=
  order.foldl (exportStep c) p

/-- Lines 34-42 of `init`: the first parse and its normalisation, on the
environment block as the runtime set it up. -/
def firstPass (raw : List String) : Except String config :=
  match Parse (copyenv raw) with
  | .error err => .error err
  | .ok c => .ok (normalise c)

/-- Lines 34-63 of `init`: everything before the call of `cfg.Export()`. -/
def resolve (raw : List String) : Result config :=
  let p : Proc := { envs := copyenv raw, stdout := "" }
  match Parse p.envs with
  | .error err =>
    .exit statusBadEnv (p.print ("failed to parse environment variables: " ++ err))
  | .ok cfg =>
    let cfg := normalise cfg
    match exportEnv cfg.AppEnv p with
    | .panic p => .panic p
    | .exit code p => .exit code p
    | .ok (some err) p => .exit statusBadEnv (p.print (err ++ "\n"))
    | .ok none p =>
      match Parse p.envs with
      | .error err =>
        .exit statusBadEnv (p.print ("failed to parse environment variables: " ++ err))
      | .ok cfg => .ok (normalise cfg) p

/-- The function `init`: `resolve`, then `cfg.Export()`.  The result holds the
final `cfg` and the process state. -/
def init (order : List String) (raw : List String) : Result config :=
  match resolve raw with
  | .ok cfg p => .ok cfg (cfg.Export order p)
  | .exit code p => .exit code p
  | .panic p => .panic p

/-- The final record of a run of `init`, when it returns. -/
def Result.value? {α : Type} : Result α → Option α
  | .ok a _ => some a
  | _ => none

/-- The process state at the end of a run. -/
def Result.proc {α : Type} : Result α → Proc
  | .ok _ p => p
  | .exit _ p => p
  | .panic p => p

/-! ## External services: AWS and the filesystem -/

/-- A Go `error` as far as the source inspects it: its `Error()` text and,
when it implements `awserr.Error`, its `Code()`. -/
structure GoError where
  text : String
  awsCode : Option String
deriving DecidableEq, Repr

/-- Result of `os.Stat` on a path.  `found`: the file is there and the error
is `nil`.  `notExist`: the file is not there and the error satisfies
`os.IsNotExist` (`ENOENT`).  `absentOther`: the file is not there, but the
error is another one, for which `os.IsNotExist` is false (`ENOTDIR` when a
component of the path is a regular file, `ENAMETOOLONG`).  `failed`: the call
failed in a way that does not tell whether the file is there (`EACCES`). -/
inductive StatResult where
  | found
  | notExist
  | absentOther (err : GoError)
  | failed (err : GoError)
deriving DecidableEq, Repr

/-- The file is not in the filesystem. -/
def StatResult.fileAbsent : StatResult → Bool
  | .notExist => true
  | .absentOther _ => true
  | _ => false

/-- The outside world of the backend targets: the outcome of each call. -/
structure World where
  newSession : String → Option GoError
  headBucket : String → Option GoError
  stat : String → StatResult
  writeFile : String → String → Option GoError
  openFile : String → Option GoError
  putObject : String → String → String → Option GoError
  closeFile : String → Option GoError

/-- A call made to the outside world, or a line logged with `log.Printf`
(the text after the logger's time stamp). -/
inductive Event where
  | newSession (region : String)
  | headBucket (bucket : String)
  | logPrintf (text : String)
  | stat (name : String)
  | writeFile (name data : String) (perm : Nat)
  | openFile (name : String)
  | putObject (bucket key path : String)
  | closeFile (name : String)
deriving DecidableEq, Repr

/-- The constant `s3.ErrCodeNoSuchBucket`. -/
def ErrCodeNoSuchBucket : String := "NoSuchBucket"

/-- The function `bucketExists`: the answer and the calls made. -/
def bucketExists (w : World) (bucket : String) : Bool × List Event :=
  match w.headBucket bucket with
  | some err =>
    match err.awsCode with
    | some code =>
      if code = ErrCodeNoSuchBucket then (false, [.headBucket bucket])
      else (false, [.headBucket bucket,
              .logPrintf ("failed to call HeadBucket: " ++ bucket ++ " -> " ++ err.text)])
    | none =>
      (false, [.headBucket bucket,
        .logPrintf ("failed to call HeadBucket: " ++ bucket ++ " -> " ++ err.text)])
  | none => (true, [.headBucket bucket])

/-- The function `InitBackend` on the global `cfg`: the returned error text
(`none` for `nil`) and the calls made. -/
def InitBackend (cfg : config) (w : World) : Option String × List Event :=
  match w.newSession cfg.Region with
  | some err => (some ("failed to connect to AWS: " ++ err.text), [.newSession cfg.Region])
  | none =>
    let bucket := cfg.ProjectName ++ "-" ++ cfg.AppEnv ++ "-backend"
    let tfstate := bucket ++ ".tfstate"
    let localTf := "terraform \x7b\n\tbackend \"local\" \x7b\n\t\tpath = \"" ++ tfstate
      ++ "\"\n\t\x7d\n\x7d"
    let remoteTf := "terraform \x7b\n\tbackend \"s3\" \x7b\n\t\tbucket = \"" ++ bucket
      ++ "\"\n\t\tkey    = \"" ++ tfstate ++ "\"\n\t\tregion = \"" ++ cfg.Region
      ++ "\"\n\t\x7d\n\x7d"
    let probe := bucketExists w bucket
    let backend := if !probe.1 then localTf else remoteTf
    let events := [Event.newSession cfg.Region] ++ probe.2
      ++ [Event.writeFile "backend.tf" backend 0o644]
    match w.writeFile "backend.tf" backend with
    | some err => (some ("failed to write backend.tf: " ++ err.text), events)
    | none => (none, events)

/-- Characters of a path after its trailing slashes are removed. -/
def stripTrailingSlashes (cs : List Char) : List Char :=
  (cs.reverse.dropWhile (fun c => c = '/')).reverse

/-- Characters after the last slash. -/
def lastElement (cs : List Char) : List Char :=
  (cs.reverse.takeWhile (fun c => c ≠ '/')).reverse

/-- Model of `filepath.Base` on Unix. -/
def Base (path : String) : String :=
  if path = "" then "."
  else
    let cs := lastElement (stripTrailingSlashes path.data)
    if cs = [] then "/" else ⟨cs⟩

/-- The function `uploadTerraformState`. -/
def uploadTerraformState (w : World) (bucket pre path : String) : Option String × List Event :=
  match w.openFile path with
  | some err => (some ("failed to open file: " ++ path ++ " -> " ++ err.text), [.openFile path])
  | none =>
    let key := pre ++ "/" ++ Base path
    let closing : List Event :=
      match w.closeFile path with
      | some err =>
        [.closeFile path,
         .logPrintf ("failed to close file handle for " ++ path ++ " -> " ++ err.text)]
      | none => [.closeFile path]
    ((w.putObject bucket key path).map (fun err => err.text),
      [Event.openFile path, Event.putObject bucket key path] ++ closing)

/-- The function `SaveBackend` on the global `cfg`.  The test of line 230 is
`os.IsNotExist(err)`, true for the result `notExist` only. -/
def SaveBackend (cfg : config) (w : World) : Option String × List Event :=
  let tfstate := cfg.ProjectName ++ "-" ++ cfg.AppEnv ++ "-backend.tfstate"
  if w.stat tfstate = .notExist then (none, [.stat tfstate])
  else
    match w.newSession cfg.Region with
    | some err =>
      (some ("failed to connect to AWS: " ++ err.text), [.stat tfstate, .newSession cfg.Region])
    | none =>
      let bucket := cfg.ProjectName ++ "-" ++ cfg.AppEnv ++ "-backend"
      let probe := bucketExists w bucket
      let events := [Event.stat tfstate, Event.newSession cfg.Region] ++ probe.2
      if probe.1 then
        let up := uploadTerraformState w bucket "" tfstate
        match up.1 with
        | some err =>
          (some ("failed to upload terraform state to remote bucket: " ++ bucket ++ " -> " ++ err),
            events ++ up.2)
        | none => (none, events ++ up.2)
      else (none, events)

/-- True for the events that upload an object. -/
def Event.isUpload : Event → Bool
  | .putObject _ _ _ => true
  | _ => false

/-! ## Download and save -/

/-- File contents: a sequence of bytes. -/
abbrev Bytes := List UInt8

/-- An `io.Reader`: the bytes it delivers, then end of file or an error. -/
structure Reader where
  data : Bytes
  err : Option GoError

/-- The files of the filesystem: the contents at each path, if any. -/
abbrev Files := String → Option Bytes

/-- Failures of the filesystem: opening a path, the number of bytes a write
to it accepts before it fails (`none`: no limit), closing it. -/
structure FileFaults where
  openErr : String → Option GoError
  writeLimit : String → Option (Nat × GoError)
  closeErr : String → Option GoError

/-- Writing `w` at offset 0 of a file that holds `old`: the bytes of `old`
past the end of `w` stay. -/
def overwrite (old w : Bytes) : Bytes := w ++ old.drop w.length

/-- Stores `b` at `path`. -/
def Files.set (fs : Files) (path : String) (b : Bytes) : Files :=
  fun q => if q = path then some b else fs q

/-- The function `save`: `os.OpenFile(path, os.O_CREATE|os.O_RDWR, 0644)`
opens the file at offset 0 and keeps what it holds (it is created empty when
absent), `io.Copy` writes the bytes of the reader from there on.  The result
is the error text (`none` for `nil`), the files and the text printed. -/
def save (r : Reader) (path : String) (ff : FileFaults) (fs : Files) :
    Option String × Files × String :=
  match ff.openErr path with
  | some err => (some ("failed to open " ++ path ++ ": " ++ err.text), fs, "")
  | none =>
    let old : Bytes := (fs path).getD []
    let printed : String :=
      match ff.closeErr path with
      | some err => "failed to close " ++ path ++ " file handle: " ++ err.text
      | none => ""
    match ff.writeLimit path with
    | some (n, werr) =>
      if n < r.data.length then
        (some ("failed to save inventory: " ++ werr.text),
          fs.set path (overwrite old (r.data.take n)), printed)
      else
        match r.err with
        | some rerr =>
          (some ("failed to save inventory: " ++ rerr.text),
            fs.set path (overwrite old r.data), printed)
        | none => (none, fs.set path (overwrite old r.data), printed)
    | none =>
      match r.err with
      | some rerr =>
        (some ("failed to save inventory: " ++ rerr.text),
          fs.set path (overwrite old r.data), printed)
      | none => (none, fs.set path (overwrite old r.data), printed)

/-- The network as `download` sees it: `url.Parse` followed by `String()`,
and `http.Get` with its response body and the outcome of closing it. -/
structure Net where
  parse : String → Except GoError String
  get : String → Except GoError Reader
  closeBody : String → Option GoError

/-- The function `download`. -/
def download (uri path : String) (net : Net) (ff : FileFaults) (fs : Files) :
    Option String × Files × String :=
  match net.parse uri with
  | .error err => (some ("failed to parse inventory url: " ++ err.text), fs, "")
  | .ok u =>
    match net.get u with
    | .error err => (some ("failed to download inventory zip: " ++ err.text), fs, "")
    | .ok body =>
      let res := save body path ff fs
      let printed : String :=
        match net.closeBody u with
        | some err => "failed to close HTTP response body: " ++ err.text
        | none => ""
      (res.1, res.2.1, res.2.2 ++ printed)

/-! ## Auxiliary definitions for the statements -/

/-- The variables read by `env.Parse` for `config`. -/
def configKeys : List String :=
  [ "projectName", "alertEmail", "CIRCLE_BRANCH", "region", "SAML_PROVIDER_ARN",
    "secopsAccounts", "inventoryVersion", "ansibleVersion", "networkVersion",
    "secretsVersion" ]

/-- The record built by a successful `env.Parse`. -/
def parsedRecord (envs : List String) : config :=
  { ProjectName := getOr envs "projectName" "",
    AlertEmail := getOr envs "alertEmail" "",
    AppEnv := getOr envs "CIRCLE_BRANCH" "sandbox",
    Region := getOr envs "region" "us-east-1",
    SamlProviderArn := getOr envs "SAML_PROVIDER_ARN" "",
    SecOpsAccountIDs :=
      (let v := getOr envs "secopsAccounts" ""
       if v = "" then [] else Split v),
    InventoryVersion := getOr envs "inventoryVersion" "v0.1.7",
    AnsibleVersion := getOr envs "ansibleVersion" "v0.0.28",
    NetworkVersion := getOr envs "networkVersion" "v0.6.10",
    SecretsVersion := getOr envs "secretsVersion" "v0.0.3rc" }

/-- A record with the defaults of `config` for a project `acme`. -/
def acmeConfig (appEnv region : String) : config :=
  { ProjectName := "acme", AlertEmail := "a@x.com", AppEnv := appEnv, Region := region,
    SamlProviderArn := "", SecOpsAccountIDs := [], InventoryVersion := "v0.1.7",
    AnsibleVersion := "v0.0.28", NetworkVersion := "v0.6.10", SecretsVersion := "v0.0.3rc" }


/-- The value an entry of the snapshot gives to the variable `x` in
`exportEnv`: the entry's value when its name is the prefix, `_` and `x`. -/
def overrideOf (env : String) (e x : String) : Option String :=
  match SplitN e with
  | [key, value] =>
    if HasPrefix key (env ++ "_") && sliceFrom key (env.length + 1) == x then some value
    else none
  | _ => none

/-- The value the last entry of the snapshot that names `x` under the prefix
gives to it. -/
def lastOverride (env : String) : List String → String → Option String
  | [], _ => none
  | e :: rest, x =>
    match lastOverride env rest x with
    | some v => some v
    | none => overrideOf env e x

/-- An entry `exportEnv` passes without error: it has a name, and when the
name starts with the prefix, `os.Setenv` accepts the rest of the name and the
value. -/
def entryOK (env : String) (e : String) : Bool :=
  match SplitN e with
  | [key, value] =>
    !HasPrefix key (env ++ "_") || setenvValid (sliceFrom key (env.length + 1)) value
  | _ => false

/-- An entry on which `exportEnv` returns an error: its name starts with the
prefix and `os.Setenv` rejects the rest of the name or the value. -/
def entryRejected (env : String) (e : String) : Bool :=
  match SplitN e with
  | [key, value] =>
    HasPrefix key (env ++ "_") && !setenvValid (sliceFrom key (env.length + 1)) value
  | _ => false

/-- No two entries of the block have the same name. -/
def UniqueKeys (envs : List String) : Prop := (envs.filterMap entryKey).Nodup

/-- The text of the local backend declaration for a state file path. -/
def localTemplate (path : String) : String :=
  "terraform \x7b\n\tbackend \"local\" \x7b\n\t\tpath = \"" ++ path ++ "\"\n\t\x7d\n\x7d"

/-- The text of the remote (`s3`) backend declaration. -/
def remoteTemplate (bucket key region : String) : String :=
  "terraform \x7b\n\tbackend \"s3\" \x7b\n\t\tbucket = \"" ++ bucket
    ++ "\"\n\t\tkey    = \"" ++ key ++ "\"\n\t\tregion = \"" ++ region ++ "\"\n\t\x7d\n\x7d"

/-- A world in which every call succeeds, `HeadBucket` answers `answer` and
`os.Stat` answers `st`. -/
def calmWorld (answer : Option GoError) (st : StatResult) : World :=
  { newSession := fun _ => none, headBucket := fun _ => answer, stat := fun _ => st,
    writeFile := fun _ _ => none, openFile := fun _ => none,
    putObject := fun _ _ _ => none, closeFile := fun _ => none }

/-- A filesystem without failures. -/
def noFaults : FileFaults :=
  { openErr := fun _ => none, writeLimit := fun _ => none, closeErr := fun _ => none }

/-- A filesystem that holds one file. -/
def oneFile (path : String) (b : Bytes) : Files := fun q => if q = path then some b else none

/-- Two entries name the same variable and hold values of the same
length. -/
def sameShape (e1 e2 : String) : Bool :=
  match SplitN e1, SplitN e2 with
  | [k1, v1], [k2, v2] => k1 == k2 && len v1 == len v2
  | _, _ => false

/-- Two environments hold the same variable names in the same order, with
values of pairwise equal length. -/
def sameShapes : List String → List String → Bool
  | [], [] => true
  | e1 :: r1, e2 :: r2 => sameShape e1 e2 && sameShapes r1 r2
  | _, _ => false

/-- Two entries of the runtime's block are both cleared or of the same
shape. -/
def blockRel (e1 e2 : String) : Prop := (e1 = "" ∧ e2 = "") ∨ sameShape e1 e2 = true

/-- Two optional values are both absent or both present with the same
length. -/
def lenRel : Option String → Option String → Prop
  | none, none => True
  | some a, some b => len a = len b
  | _, _ => False

/-- A network on which every request succeeds and delivers `body`. -/
def calmNet (body : Bytes) : Net :=
  { parse := fun uri => .ok uri, get := fun _ => .ok { data := body, err := none },
    closeBody := fun _ => none }

/-- A project whose name holds a slash, `acme/site`, in `development`. -/
def siteConfig : config :=
  { acmeConfig "development" "us-east-1" with ProjectName := "acme/site" }

/-- A world in which `acme` is a regular file, so that the state file
`acme/site-development-backend.tfstate` is not there and `os.Stat` fails with
`ENOTDIR`; the bucket is not found. -/
def notDirWorld : World :=
  calmWorld (some ⟨"NotFound: Not Found", some "NotFound"⟩)
    (.absentOther ⟨"stat acme/site-development-backend.tfstate: not a directory", none⟩)
/-! ## Lemmas: strings -/

theorem cutEq_append (k v : List Char) (h : '=' ∉ k) : cutEq (k ++ '=' :: v) = some (k, v) := by
  induction k with
  | nil => simp [cutEq]
  | cons c cs ih =>
    have hc : c ≠ '=' := fun e => h (by simp [e])
    have hcs : '=' ∉ cs := fun e => h (by simp [e])
    simp [cutEq, hc, ih hcs]

theorem cutEq_eq_some {s k v : List Char} (h : cutEq s = some (k, v)) :
    s = k ++ '=' :: v ∧ '=' ∉ k := by
  induction s generalizing k with
  | nil => simp [cutEq] at h
  | cons c cs ih =>
    unfold cutEq at h
    by_cases hc : c = '='
    · simp [hc] at h
      obtain ⟨rfl, rfl⟩ := h
      simp [hc]
    · simp only [hc, if_false] at h
      cases hcut : cutEq cs with
      | none => simp [hcut] at h
      | some kv =>
        obtain ⟨k1, v1⟩ := kv
        simp [hcut] at h
        obtain ⟨rfl, rfl⟩ := h
        obtain ⟨h1, h2⟩ := ih hcut
        refine ⟨by simp [h1], ?_⟩
        simp [h2, Ne.symm hc]

theorem setenvValid_iff (k v : String) :
    setenvValid k v = true ↔
      k ≠ "" ∧ '=' ∉ k.data ∧ Char.ofNat 0 ∉ k.data ∧ Char.ofNat 0 ∉ v.data := by
  have hk : k.data = [] ↔ k = "" := by
    constructor
    · intro h; cases k; simp_all
    · rintro rfl; rfl
  simp [setenvValid, hk, and_assoc]

theorem entry_data (k v : String) : (k ++ "=" ++ v).data = k.data ++ '=' :: v.data := by
  simp [String.data_append]

theorem entryKey_mk (k v : String) (h : '=' ∉ k.data) : entryKey (k ++ "=" ++ v) = some k := by
  simp [entryKey, entry_data, cutEq_append _ _ h]

theorem entryValue_mk (k v : String) (h : '=' ∉ k.data) : entryValue (k ++ "=" ++ v) = some v := by
  simp [entryValue, entry_data, cutEq_append _ _ h]

theorem SplitN_mk (k v : String) (h : '=' ∉ k.data) : SplitN (k ++ "=" ++ v) = [k, v] := by
  simp [SplitN, entry_data, cutEq_append _ _ h]

theorem entryKey_empty : entryKey "" = none := by decide

/-- What `SplitN` returns on an entry: two parts exactly when the entry has a
name, and then they are its name and its value. -/
theorem SplitN_eq_pair {e key value : String} (h : SplitN e = [key, value]) :
    entryKey e = some key ∧ entryValue e = some value ∧ e = key ++ "=" ++ value
      ∧ '=' ∉ key.data := by
  unfold SplitN at h
  cases hc : cutEq e.data with
  | none => simp [hc] at h
  | some kv =>
    obtain ⟨k, v⟩ := kv
    simp [hc] at h
    obtain ⟨rfl, rfl⟩ := h
    obtain ⟨h1, h2⟩ := cutEq_eq_some hc
    refine ⟨by simp [entryKey, hc], by simp [entryValue, hc], ?_, h2⟩
    apply String.ext
    simp [entry_data, h1]

theorem entryKey_eq_some {e key : String} (h : entryKey e = some key) :
    ∃ value, SplitN e = [key, value] := by
  unfold entryKey at h
  cases hc : cutEq e.data with
  | none => simp [hc] at h
  | some kv =>
    obtain ⟨k, v⟩ := kv
    simp [hc] at h
    subst h
    exact ⟨⟨v⟩, by simp [SplitN, hc]⟩

theorem entryKey_eq_none {e : String} (h : entryKey e = none) : SplitN e = [e] := by
  unfold entryKey at h
  cases hc : cutEq e.data with
  | none => simp [SplitN, hc]
  | some kv => simp [hc] at h

/-! ## Lemmas: the environment as a map -/

theorem findValue_setEntry (key kv : String) (v : Option String)
    (hk : entryKey kv = some key) (hv : entryValue kv = v) (key2 : String) (envs : List String) :
    findValue key2 (setEntry key kv envs) = if key2 = key then v else findValue key2 envs := by
  induction envs with
  | nil =>
    by_cases h : key2 = key
    · simp [setEntry, findValue, hk, hv, h]
    · simp [setEntry, findValue, hk, h, Ne.symm h]
  | cons s rest ih =>
    by_cases hs : entryKey s = some key
    · by_cases h : key2 = key
      · simp [setEntry, findValue, hs, hk, hv, h]
      · simp [setEntry, findValue, hs, hk, h, Ne.symm h]
    · by_cases h : key2 = key
      · subst h
        simp [setEntry, findValue, hs, ih]
      · simp [setEntry, findValue, hs, ih, h]

theorem LookupEnv_Setenv {key value : String} {envs envs2 : List String}
    (h : Setenv key value envs = .ok envs2) (key2 : String) :
    LookupEnv envs2 key2 = if key2 = key then some value else LookupEnv envs key2 := by
  unfold Setenv at h
  by_cases hv : setenvValid key value = true
  · simp [hv] at h
    obtain ⟨hne, heq, -, -⟩ := (setenvValid_iff key value).1 hv
    subst h
    unfold LookupEnv
    rw [findValue_setEntry key _ (some value) (entryKey_mk _ _ heq) (entryValue_mk _ _ heq)]
    by_cases h2 : key2 = key
    · subst h2; simp [hne]
    · simp [h2]
  · simp [hv] at h

theorem findValue_copyenvFrom (key : String) (seen envs : List String) (h : key ∉ seen) :
    findValue key (copyenvFrom seen envs) = findValue key envs := by
  induction envs generalizing seen with
  | nil => rfl
  | cons s rest ih =>
    unfold copyenvFrom
    cases hs : entryKey s with
    | none => simp [findValue, hs, ih seen h]
    | some k =>
      by_cases hk : k ∈ seen
      · have hne : k ≠ key := fun e => h (e ▸ hk)
        simp [hk, findValue, hs, entryKey_empty, hne, ih seen h]
      · by_cases hkk : k = key
        · subst hkk
          simp [hk, findValue, hs]
        · have : key ∉ k :: seen := by simp [h, Ne.symm hkk]
          simp [hk, findValue, hs, hkk, ih _ this]

theorem LookupEnv_copyenv (raw : List String) (key : String) :
    LookupEnv (copyenv raw) key = LookupEnv raw key := by
  unfold LookupEnv copyenv
  rw [findValue_copyenvFrom key [] raw (by simp)]

theorem findValue_Environ (key : String) (envs : List String) :
    findValue key (Environ envs) = findValue key envs := by
  induction envs with
  | nil => rfl
  | cons s rest ih =>
    unfold Environ at ih ⊢
    by_cases hs : s = ""
    · subst hs
      simp [List.filter, findValue, entryKey_empty, ih]
    · have : (s != "") = true := by simp [hs]
      simp [List.filter, this, findValue, ih]

theorem LookupEnv_Environ (envs : List String) (key : String) :
    LookupEnv (Environ envs) key = LookupEnv envs key := by
  unfold LookupEnv
  rw [findValue_Environ]

/-! ## Lemmas: `env.Parse`, `normalise`, `config.Export` -/

theorem Parse_congr {e1 e2 : List String}
    (h : ∀ k ∈ configKeys, LookupEnv e1 k = LookupEnv e2 k) : Parse e1 = Parse e2 := by
  have h1 := h "projectName" (by simp [configKeys])
  have h2 := h "alertEmail" (by simp [configKeys])
  have h3 := h "CIRCLE_BRANCH" (by simp [configKeys])
  have h4 := h "region" (by simp [configKeys])
  have h5 := h "SAML_PROVIDER_ARN" (by simp [configKeys])
  have h6 := h "secopsAccounts" (by simp [configKeys])
  have h7 := h "inventoryVersion" (by simp [configKeys])
  have h8 := h "ansibleVersion" (by simp [configKeys])
  have h9 := h "networkVersion" (by simp [configKeys])
  have h10 := h "secretsVersion" (by simp [configKeys])
  simp only [Parse, requiredErrors, getRequired, getOr, h1, h2, h3, h4, h5, h6, h7, h8, h9, h10]

theorem Parse_ok_iff (envs : List String) :
    (∃ c, Parse envs = .ok c) ↔
      LookupEnv envs "projectName" ≠ none ∧ LookupEnv envs "alertEmail" ≠ none := by
  unfold Parse requiredErrors getRequired
  cases h1 : LookupEnv envs "projectName" <;> cases h2 : LookupEnv envs "alertEmail" <;> simp

theorem Parse_eq_ok {envs : List String} {c : config} (h : Parse envs = .ok c) :
    c = parsedRecord envs := by
  unfold Parse at h
  split at h
  · simp only [Except.ok.injEq] at h
    exact h.symm
  · simp at h

theorem Parse_error_iff (envs : List String) :
    (∃ err, Parse envs = .error err) ↔
      (LookupEnv envs "projectName" = none ∨ LookupEnv envs "alertEmail" = none) := by
  unfold Parse requiredErrors getRequired
  cases h1 : LookupEnv envs "projectName" <;> cases h2 : LookupEnv envs "alertEmail" <;> simp

theorem normalise_AppEnv (c : config) :
    (normalise c).AppEnv = "development" ∨
      (EqualFold (normalise c).AppEnv "production" = true ∧ (normalise c).AppEnv = c.AppEnv) := by
  unfold normalise
  by_cases h : EqualFold c.AppEnv "production" = true
  · simp [h]
  · simp [h]

theorem normalise_of_fold {c : config} (h : EqualFold c.AppEnv "production" = true) :
    normalise c = c := by
  simp [normalise, h]

theorem normalise_of_not_fold {c : config} (h : EqualFold c.AppEnv "production" = false) :
    (normalise c).AppEnv = "development" := by
  simp [normalise, h]

theorem lookup_mem_keys {α : Type} (k : String) (v : α) (l : List (String × α))
    (h : l.lookup k = some v) : k ∈ l.map Prod.fst := by
  induction l with
  | nil => simp at h
  | cons x xs ih =>
    obtain ⟨a, b⟩ := x
    by_cases hk : k = a
    · simp [hk]
    · have : (k == a) = false := by simp [hk]
      simp only [List.lookup, this] at h
      simp [ih h]

theorem vars_keys (c : config) : c.vars.map Prod.fst = exportNames := rfl

theorem exportStep_lookup (c : config) (p : Proc) (k key : String) (h : key ∉ exportNames) :
    LookupEnv (exportStep c p k).envs key = LookupEnv p.envs key := by
  unfold exportStep
  cases hv : c.vars.lookup k with
  | none => rfl
  | some v =>
    have hk : k ∈ exportNames := by
      rw [← vars_keys c]; exact lookup_mem_keys k v _ hv
    have hne : key ≠ k := fun e => h (e ▸ hk)
    cases hs : Setenv k v p.envs with
    | error err => simp [Proc.print, hs]
    | ok envs2 =>
      simp [Proc.print, hs, LookupEnv_Setenv hs, hne]

theorem Export_lookup (c : config) (order : List String) (p : Proc) (key : String)
    (h : key ∉ exportNames) :
    LookupEnv (c.Export order p).envs key = LookupEnv p.envs key := by
  unfold config.Export
  induction order generalizing p with
  | nil => rfl
  | cons k ks ih =>
    simp only [List.foldl_cons]
    rw [ih, exportStep_lookup c p k key h]

/-- The steps of a run of `init` that returns. -/
theorem init_eq_ok {order raw : List String} {c : config}
    (h : (init order raw).value? = some c) :
    ∃ c0 p1 c2, Parse (copyenv raw) = .ok c0 ∧
      exportEnv (normalise c0).AppEnv { envs := copyenv raw, stdout := "" } = .ok none p1 ∧
      Parse p1.envs = .ok c2 ∧ c = normalise c2 ∧ resolve raw = .ok c p1 ∧
      init order raw = .ok c (c.Export order p1) := by
  have hi : init order raw = match resolve raw with
      | .ok cfg p => .ok cfg (cfg.Export order p)
      | .exit code p => .exit code p
      | .panic p => .panic p := rfl
  have hres : resolve raw = (match Parse (copyenv raw) with
    | .error err =>
      .exit statusBadEnv
        (Proc.print { envs := copyenv raw, stdout := "" }
          ("failed to parse environment variables: " ++ err))
    | .ok cfg =>
      match exportEnv (normalise cfg).AppEnv { envs := copyenv raw, stdout := "" } with
      | .panic p => .panic p
      | .exit code p => .exit code p
      | .ok (some err) p => .exit statusBadEnv (p.print (err ++ "\n"))
      | .ok none p =>
        match Parse p.envs with
        | .error err =>
          .exit statusBadEnv (p.print ("failed to parse environment variables: " ++ err))
        | .ok cfg => .ok (normalise cfg) p) := rfl
  cases h0 : Parse (copyenv raw) with
  | error err =>
    rw [h0] at hres
    rw [hi, hres] at h
    simp [Result.value?] at h
  | ok c0 =>
    rw [h0] at hres
    simp only at hres
    cases h1 : exportEnv (normalise c0).AppEnv { envs := copyenv raw, stdout := "" } with
    | exit code q => rw [h1] at hres; rw [hi, hres] at h; simp [Result.value?] at h
    | panic q => rw [h1] at hres; rw [hi, hres] at h; simp [Result.value?] at h
    | ok r q =>
      rw [h1] at hres
      cases r with
      | some err => rw [hi, hres] at h; simp [Result.value?] at h
      | none =>
        simp only at hres
        cases h2 : Parse q.envs with
        | error err => rw [h2] at hres; rw [hi, hres] at h; simp [Result.value?] at h
        | ok c2 =>
          rw [h2] at hres
          simp only at hres
          rw [hi, hres] at h
          simp only [Result.value?, Option.some.injEq] at h
          subst h
          refine ⟨c0, q, c2, rfl, h1, h2, rfl, hres, ?_⟩
          rw [hi, hres]

/-- C1 (as amended): after a run of `init` that returns, `AppEnv` is exactly
`development` or a string equal to `production` under case folding; when the
`CIRCLE_BRANCH` variable left by the resolution equals `production` under case
folding, `AppEnv` is exactly that value, its letter case kept. -/
theorem init_AppEnv (order raw : List String) (c : config)
    (h : (init order raw).value? = some c) :
    (c.AppEnv = "development" ∨ EqualFold c.AppEnv "production" = true) ∧
    (∀ v, LookupEnv (init order raw).proc.envs "CIRCLE_BRANCH" = some v →
      EqualFold v "production" = true → c.AppEnv = v) := by
  obtain ⟨c0, p1, c2, -, -, h2, rfl, -, hi⟩ := init_eq_ok h
  constructor
  · rcases normalise_AppEnv c2 with h | h
    · exact Or.inl h
    · exact Or.inr h.1
  · intro v hv hf
    rw [hi] at hv
    simp only [Result.proc] at hv
    rw [Export_lookup _ _ _ _ (by decide)] at hv
    have hc := Parse_eq_ok h2
    have ha : c2.AppEnv = v := by
      rw [hc]; simp [parsedRecord, getOr, hv]
    have : EqualFold c2.AppEnv "production" = true := by rw [ha]; exact hf
    rw [normalise_of_fold this, ha]

/-- Witness of `init_AppEnv`: a run with `CIRCLE_BRANCH=Production`. -/
theorem init_AppEnv_witness :
    (init exportNames
        ["projectName=acme", "alertEmail=a@x.com", "CIRCLE_BRANCH=Production"]).value?
      = some (acmeConfig "Production" "us-east-1") ∧
    (((acmeConfig "Production" "us-east-1").AppEnv = "development" ∨
        EqualFold (acmeConfig "Production" "us-east-1").AppEnv "production" = true) ∧
    (∀ v, LookupEnv (init exportNames
        ["projectName=acme", "alertEmail=a@x.com", "CIRCLE_BRANCH=Production"]).proc.envs
          "CIRCLE_BRANCH" = some v → EqualFold v "production" = true →
            (acmeConfig "Production" "us-east-1").AppEnv = v)) :=
  ⟨by decide,
   init_AppEnv exportNames ["projectName=acme", "alertEmail=a@x.com", "CIRCLE_BRANCH=Production"]
    (acmeConfig "Production" "us-east-1") (by decide)⟩

/-- C1, counterexample: with `CIRCLE_BRANCH=PRODUCTION` the run returns and the
final `AppEnv` is `PRODUCTION`, neither `production` nor `development`. -/
theorem init_AppEnv_not_canonical :
    (init exportNames ["projectName=acme", "alertEmail=a@x.com", "CIRCLE_BRANCH=PRODUCTION"]).value?.map
      config.AppEnv = some "PRODUCTION" := by
  decide

/-! ## Lemmas: the loop of `exportEnv` -/

theorem exportEnvLoop_skip {env e key value : String} (rest : List String) (p : Proc)
    (hs : SplitN e = [key, value]) (hp : HasPrefix key (env ++ "_") = false) :
    exportEnvLoop env (e :: rest) p = exportEnvLoop env rest p := by
  simp [exportEnvLoop, hs, hp]

theorem exportEnvLoop_set {env e key value : String} (rest : List String) (p : Proc)
    {envs2 : List String}
    (hs : SplitN e = [key, value]) (hp : HasPrefix key (env ++ "_") = true)
    (hset : Setenv (sliceFrom key (env.length + 1)) value p.envs = .ok envs2) :
    exportEnvLoop env (e :: rest) p =
      exportEnvLoop env rest
        ({ p with envs := envs2 }.print
          ("Exported " ++ sliceFrom key (env.length + 1)
            ++ " environment variable, value length=" ++ fmtInt (len value) ++ "\n")) := by
  simp [exportEnvLoop, hs, hp, hset]

theorem exportEnvLoop_fail {env e key value : String} (rest : List String) (p : Proc)
    {err : String}
    (hs : SplitN e = [key, value]) (hp : HasPrefix key (env ++ "_") = true)
    (hset : Setenv (sliceFrom key (env.length + 1)) value p.envs = .error err) :
    exportEnvLoop env (e :: rest) p =
      .ok (some ("failed to read " ++ e ++ ", when setting "
                ++ sliceFrom key (env.length + 1) ++ ": " ++ err)) p := by
  simp [exportEnvLoop, hs, hp, hset]

theorem exportEnvLoop_panic {env e : String} (rest : List String) (p : Proc)
    (hs : entryKey e = none) : exportEnvLoop env (e :: rest) p = .panic p := by
  simp [exportEnvLoop, entryKey_eq_none hs]

theorem Setenv_eq_ok {key value : String} {envs envs2 : List String}
    (h : Setenv key value envs = .ok envs2) :
    setenvValid key value = true ∧ envs2 = setEntry key (key ++ "=" ++ value) envs := by
  unfold Setenv at h
  by_cases hv : setenvValid key value = true
  · simp [hv] at h; exact ⟨hv, h.symm⟩
  · simp [hv] at h

/-- Case analysis of one entry of the snapshot. -/
theorem entry_cases (env e : String) :
    (entryKey e = none) ∨
    (∃ key value, SplitN e = [key, value] ∧ HasPrefix key (env ++ "_") = false) ∨
    (∃ key value, SplitN e = [key, value] ∧ HasPrefix key (env ++ "_") = true) := by
  cases hk : entryKey e with
  | none => exact Or.inl rfl
  | some key =>
    obtain ⟨value, hs⟩ := entryKey_eq_some hk
    cases hp : HasPrefix key (env ++ "_") with
    | false => exact Or.inr (Or.inl ⟨key, value, hs, hp⟩)
    | true => exact Or.inr (Or.inr ⟨key, value, hs, hp⟩)

/-- The loop of `exportEnv` never calls `os.Exit`. -/
theorem exportEnvLoop_ne_exit (env : String) (snap : List String) (p : Proc) (code : Nat)
    (q : Proc) : exportEnvLoop env snap p ≠ .exit code q := by
  induction snap generalizing p with
  | nil => simp [exportEnvLoop]
  | cons e rest ih =>
    rcases entry_cases env e with hk | ⟨key, value, hs, hp⟩ | ⟨key, value, hs, hp⟩
    · simp [exportEnvLoop_panic rest p hk]
    · rw [exportEnvLoop_skip rest p hs hp]; exact ih p
    · cases hset : Setenv (sliceFrom key (env.length + 1)) value p.envs with
      | error err => simp [exportEnvLoop_fail rest p hs hp hset]
      | ok envs2 => rw [exportEnvLoop_set rest p hs hp hset]; exact ih _

/-- After a loop of `exportEnv` that ends without error, a variable has the
value given by the last entry of the snapshot that names it under the prefix,
or, without such an entry, the value it had before. -/
theorem exportEnvLoop_lookup (env : String) (snap : List String) (p q : Proc)
    (h : exportEnvLoop env snap p = .ok none q) (x : String) :
    LookupEnv q.envs x =
      match lastOverride env snap x with
      | some v => some v
      | none => LookupEnv p.envs x := by
  induction snap generalizing p with
  | nil =>
    simp [exportEnvLoop] at h
    subst h
    simp [lastOverride]
  | cons e rest ih =>
    rcases entry_cases env e with hk | ⟨key, value, hs, hp⟩ | ⟨key, value, hs, hp⟩
    · simp [exportEnvLoop_panic rest p hk] at h
    · rw [exportEnvLoop_skip rest p hs hp] at h
      rw [ih p h]
      simp only [lastOverride]
      cases lastOverride env rest x with
      | some v => rfl
      | none => simp [overrideOf, hs, hp]
    · cases hset : Setenv (sliceFrom key (env.length + 1)) value p.envs with
      | error err => simp [exportEnvLoop_fail rest p hs hp hset] at h
      | ok envs2 =>
        rw [exportEnvLoop_set rest p hs hp hset] at h
        rw [ih _ h]
        simp only [lastOverride]
        cases lastOverride env rest x with
        | some v => rfl
        | none =>
          simp only [Proc.print, LookupEnv_Setenv hset, overrideOf, hs, hp, Bool.true_and]
          by_cases hx : x = sliceFrom key (env.length + 1)
          · simp [hx]
          · have : (sliceFrom key (env.length + 1) == x) = false := by
              simp [Ne.symm hx]
            simp [hx, this]

/-- The loop of `exportEnv` ends without error exactly when every entry of
the snapshot is one it passes. -/
theorem exportEnvLoop_ok_iff (env : String) (snap : List String) (p : Proc) :
    (∃ q, exportEnvLoop env snap p = .ok none q) ↔ ∀ e ∈ snap, entryOK env e = true := by
  induction snap generalizing p with
  | nil => simp [exportEnvLoop]
  | cons e rest ih =>
    rcases entry_cases env e with hk | ⟨key, value, hs, hp⟩ | ⟨key, value, hs, hp⟩
    · simp [exportEnvLoop_panic rest p hk, entryOK, entryKey_eq_none hk]
    · rw [exportEnvLoop_skip rest p hs hp, ih p]
      simp [entryOK, hs, hp]
    · cases hset : Setenv (sliceFrom key (env.length + 1)) value p.envs with
      | error err =>
        have hv : setenvValid (sliceFrom key (env.length + 1)) value = false := by
          cases hvv : setenvValid (sliceFrom key (env.length + 1)) value with
          | false => rfl
          | true => simp [Setenv, hvv] at hset
        simp [exportEnvLoop_fail rest p hs hp hset, entryOK, hs, hp, hv]
      | ok envs2 =>
        rw [exportEnvLoop_set rest p hs hp hset, ih _]
        have hv := (Setenv_eq_ok hset).1
        simp [entryOK, hs, hp, hv]

theorem mem_setEntry {key kv e : String} {envs : List String} (h : e ∈ setEntry key kv envs) :
    e ∈ envs ∨ e = kv := by
  induction envs with
  | nil => simp [setEntry] at h; exact Or.inr h
  | cons s rest ih =>
    unfold setEntry at h
    by_cases hs : entryKey s = some key
    · simp [hs] at h
      rcases h with h | h
      · exact Or.inr h
      · exact Or.inl (by simp [h])
    · simp [hs] at h
      rcases h with h | h
      · exact Or.inl (by simp [h])
      · rcases ih h with h | h
        · exact Or.inl (by simp [h])
        · exact Or.inr h

/-- Every entry of the block after the loop of `exportEnv` was there before
or was stored for an entry of the snapshot whose name starts with the
prefix. -/
theorem exportEnvLoop_mem (env : String) (snap : List String) (p q : Proc)
    (h : exportEnvLoop env snap p = .ok none q) (e2 : String) (he : e2 ∈ q.envs) :
    e2 ∈ p.envs ∨ ∃ e ∈ snap, ∃ key value, SplitN e = [key, value] ∧
      HasPrefix key (env ++ "_") = true ∧
      setenvValid (sliceFrom key (env.length + 1)) value = true ∧
      e2 = sliceFrom key (env.length + 1) ++ "=" ++ value := by
  induction snap generalizing p with
  | nil =>
    simp [exportEnvLoop] at h
    subst h
    exact Or.inl he
  | cons e rest ih =>
    rcases entry_cases env e with hk | ⟨key, value, hs, hp⟩ | ⟨key, value, hs, hp⟩
    · simp [exportEnvLoop_panic rest p hk] at h
    · rw [exportEnvLoop_skip rest p hs hp] at h
      rcases ih p h with h1 | ⟨e0, hm, rest0⟩
      · exact Or.inl h1
      · exact Or.inr ⟨e0, by simp [hm], rest0⟩
    · cases hset : Setenv (sliceFrom key (env.length + 1)) value p.envs with
      | error err => simp [exportEnvLoop_fail rest p hs hp hset] at h
      | ok envs2 =>
        rw [exportEnvLoop_set rest p hs hp hset] at h
        obtain ⟨hv, heq⟩ := Setenv_eq_ok hset
        rcases ih _ h with h1 | ⟨e0, hm, rest0⟩
        · simp only [Proc.print] at h1
          rw [heq] at h1
          rcases mem_setEntry h1 with h2 | h2
          · exact Or.inl h2
          · exact Or.inr ⟨e, by simp, key, value, hs, hp, hv, h2⟩
        · exact Or.inr ⟨e0, by simp [hm], rest0⟩

/-! ## Lemmas: names under the prefix, uniqueness of names -/

/-- A name starts with `pre` and continues with `x` exactly when it is
`pre ++ x`. -/
theorem prefix_slice_iff (key pre x : String) :
    (HasPrefix key pre = true ∧ sliceFrom key pre.length = x) ↔ key = pre ++ x := by
  unfold HasPrefix sliceFrom
  rw [List.isPrefixOf_iff_prefix]
  constructor
  · rintro ⟨⟨t, ht⟩, hx⟩
    apply String.ext
    rw [String.data_append, ← ht]
    congr 1
    rw [← hx, ← ht, ← String.length_data]
    simp
  · rintro rfl
    refine ⟨⟨x.data, by simp [String.data_append]⟩, ?_⟩
    apply String.ext
    rw [← String.length_data]
    simp [String.data_append]

theorem length_underscore (env : String) : (env ++ "_").length = env.length + 1 := by
  rw [String.length_append]; rfl

theorem overrideOf_eq_some {env e x v : String} (h : overrideOf env e x = some v) :
    entryKey e = some (env ++ "_" ++ x) ∧ entryValue e = some v := by
  unfold overrideOf at h
  split at h
  · rename_i key value hs
    obtain ⟨hk, hv, -, -⟩ := SplitN_eq_pair hs
    by_cases hc : (HasPrefix key (env ++ "_") && sliceFrom key (env.length + 1) == x) = true
    · simp only [hc, if_true, Option.some.injEq] at h
      simp only [Bool.and_eq_true, beq_iff_eq] at hc
      rw [← length_underscore] at hc
      rw [(prefix_slice_iff key (env ++ "_") x).1 hc] at hk
      exact ⟨hk, h ▸ hv⟩
    · simp [hc] at h
  · simp at h

theorem overrideOf_of_key {env e x : String} (h : entryKey e = some (env ++ "_" ++ x)) :
    overrideOf env e x = entryValue e := by
  obtain ⟨value, hs⟩ := entryKey_eq_some h
  obtain ⟨-, hv, -, -⟩ := SplitN_eq_pair hs
  have := (prefix_slice_iff (env ++ "_" ++ x) (env ++ "_") x).2 rfl
  rw [length_underscore] at this
  simp [overrideOf, hs, this.1, this.2, hv]

theorem overrideOf_of_not_key {env e x : String} (h : entryKey e ≠ some (env ++ "_" ++ x)) :
    overrideOf env e x = none := by
  cases ho : overrideOf env e x with
  | none => rfl
  | some v => exact absurd (overrideOf_eq_some ho).1 h

theorem findValue_eq_none_of_not_mem (key : String) (envs : List String)
    (h : key ∉ envs.filterMap entryKey) : findValue key envs = none := by
  induction envs with
  | nil => rfl
  | cons s rest ih =>
    cases hs : entryKey s with
    | none =>
      simp only [List.filterMap_cons, hs] at h
      simp [findValue, hs, ih h]
    | some k =>
      simp only [List.filterMap_cons, hs, List.mem_cons, not_or] at h
      have : k ≠ key := fun e => h.1 e.symm
      simp [findValue, hs, this, ih h.2]

theorem findValue_of_mem_unique {key e : String} {envs : List String} (hu : UniqueKeys envs)
    (he : e ∈ envs) (hk : entryKey e = some key) : findValue key envs = entryValue e := by
  induction envs with
  | nil => simp at he
  | cons s rest ih =>
    unfold UniqueKeys at hu
    by_cases hse : s = e
    · subst hse
      simp [findValue, hk]
    · have her : e ∈ rest := by
        rcases List.mem_cons.1 he with h | h
        · exact absurd h.symm hse
        · exact h
      have hmem : key ∈ rest.filterMap entryKey := List.mem_filterMap.2 ⟨e, her, hk⟩
      cases hs : entryKey s with
      | none =>
        simp only [List.filterMap_cons, hs] at hu
        simp [findValue, hs, ih hu her]
      | some k =>
        simp only [List.filterMap_cons, hs, List.nodup_cons] at hu
        have : k ≠ key := fun e => hu.1 (e ▸ hmem)
        simp [findValue, hs, this, ih hu.2 her]

/-- With unique names the last override of `x` in the snapshot is the value
of the variable named by the prefix, `_` and `x`. -/
theorem lastOverride_eq_findValue (env : String) (snap : List String) (hu : UniqueKeys snap)
    (x : String) : lastOverride env snap x = findValue (env ++ "_" ++ x) snap := by
  induction snap with
  | nil => rfl
  | cons e rest ih =>
    unfold UniqueKeys at hu
    by_cases hk : entryKey e = some (env ++ "_" ++ x)
    · simp only [List.filterMap_cons, hk, List.nodup_cons] at hu
      have hn := findValue_eq_none_of_not_mem _ _ hu.1
      simp [lastOverride, ih hu.2, hn, findValue, hk, overrideOf_of_key hk]
    · have hu2 : UniqueKeys rest := by
        cases hs : entryKey e with
        | none => simpa [List.filterMap_cons, hs] using hu
        | some k =>
          simp only [List.filterMap_cons, hs, List.nodup_cons] at hu
          exact hu.2
      simp only [lastOverride, ih hu2, findValue, hk, if_false, overrideOf_of_not_key hk]
      cases findValue (env ++ "_" ++ x) rest <;> rfl

theorem copyenvFrom_keys (seen envs : List String) :
    ((copyenvFrom seen envs).filterMap entryKey).Nodup ∧
      ∀ k ∈ (copyenvFrom seen envs).filterMap entryKey, k ∉ seen := by
  induction envs generalizing seen with
  | nil => simp [copyenvFrom]
  | cons s rest ih =>
    unfold copyenvFrom
    cases hs : entryKey s with
    | none =>
      simp only [List.filterMap_cons, hs]
      exact ih seen
    | some k =>
      by_cases hk : k ∈ seen
      · simp only [hk, if_true, List.filterMap_cons, entryKey_empty]
        exact ih seen
      · simp only [hk, if_false, List.filterMap_cons, hs, List.nodup_cons, List.mem_cons]
        obtain ⟨h1, h2⟩ := ih (k :: seen)
        refine ⟨⟨fun hm => h2 k hm (by simp), h1⟩, ?_⟩
        rintro k2 (rfl | hm)
        · exact hk
        · exact fun hin => h2 k2 hm (by simp [hin])

theorem UniqueKeys_copyenv (raw : List String) : UniqueKeys (copyenv raw) :=
  (copyenvFrom_keys [] raw).1

theorem UniqueKeys_Environ {envs : List String} (h : UniqueKeys envs) :
    UniqueKeys (Environ envs) := by
  unfold UniqueKeys Environ at *
  exact List.Nodup.sublist (List.Sublist.filterMap _ (List.filter_sublist _)) h

/-- After `exportEnv` on a block with unique names, a variable named under the
prefix has overridden the variable of the plain name; any other variable is
as before. -/
theorem exportEnv_lookup {appenv : String} {p q : Proc} (hu : UniqueKeys p.envs)
    (h : exportEnv appenv p = .ok none q) (x : String) :
    LookupEnv q.envs x =
      match LookupEnv p.envs (ToUpper appenv ++ "_" ++ x) with
      | some v => some v
      | none => LookupEnv p.envs x := by
  unfold exportEnv at h
  simp only at h
  rw [exportEnvLoop_lookup _ _ _ _ h x,
    lastOverride_eq_findValue _ _ (UniqueKeys_Environ hu), findValue_Environ]
  have hne : ToUpper appenv ++ "_" ++ x ≠ "" := by
    intro he
    have := congrArg String.data he
    simp [String.data_append] at this
  simp [LookupEnv, hne]

/-! ## The override prefix -/

theorem toUpper_toLower (c : Char) : c.toLower.toUpper = c.toUpper := by
  by_cases h : c.toNat ≥ 65 ∧ c.toNat ≤ 90
  · have hc : c = Char.ofNat c.toNat := (Char.ofNat_toNat c).symm
    generalize c.toNat = n at h hc
    subst hc
    obtain ⟨h1, h2⟩ := h
    interval_cases n <;> decide
  · simp [Char.toLower, h]

/-- Every spelling of `production` has the prefix `PRODUCTION`. -/
theorem ToUpper_of_fold {s : String} (h : EqualFold s "production" = true) :
    ToUpper s = "PRODUCTION" := by
  unfold EqualFold at h
  have h2 : s.data.map Char.toLower = "production".data.map Char.toLower := by
    simpa using h
  unfold ToUpper
  apply String.ext
  have h3 : s.data.map Char.toUpper = (s.data.map Char.toLower).map Char.toUpper := by
    rw [List.map_map]
    apply List.map_congr_left
    intro c _
    exact (toUpper_toLower c).symm
  show s.data.map Char.toUpper = _
  rw [h3, h2]
  decide

theorem ToUpper_normalise (c : config) :
    ToUpper (normalise c).AppEnv = "DEVELOPMENT" ∨ ToUpper (normalise c).AppEnv = "PRODUCTION" := by
  rcases normalise_AppEnv c with h | h
  · left; rw [h]; decide
  · right; exact ToUpper_of_fold h.1

theorem firstPass_eq_ok {raw : List String} {c1 : config} (h : firstPass raw = .ok c1) :
    ∃ c0, Parse (copyenv raw) = .ok c0 ∧ c1 = normalise c0 := by
  unfold firstPass at h
  cases h0 : Parse (copyenv raw) with
  | error err => simp [h0] at h
  | ok c0 =>
    simp [h0] at h
    exact ⟨c0, rfl, h.symm⟩

/-! ## C2 -/

/-- C2 (as amended): when a run of `init` returns and neither `CIRCLE_BRANCH`
nor `DEVELOPMENT_CIRCLE_BRANCH` holds a value equal to `production` under case
folding, the final `AppEnv` is exactly `development`; when moreover neither
`region` nor `DEVELOPMENT_region` is set, the final `Region` is `us-east-1`. -/
theorem init_development (order raw : List String) (c : config)
    (h : (init order raw).value? = some c)
    (hb : ∀ v, LookupEnv raw "CIRCLE_BRANCH" = some v → EqualFold v "production" = false)
    (ho : ∀ v, LookupEnv raw "DEVELOPMENT_CIRCLE_BRANCH" = some v →
      EqualFold v "production" = false) :
    c.AppEnv = "development" ∧
      (LookupEnv raw "region" = none → LookupEnv raw "DEVELOPMENT_region" = none →
        c.Region = "us-east-1") := by
  obtain ⟨c0, p1, c2, h0, h1, h2, rfl, -, -⟩ := init_eq_ok h
  have hc0 := Parse_eq_ok h0
  have hc2 := Parse_eq_ok h2
  have ha0 : EqualFold c0.AppEnv "production" = false := by
    rw [hc0]
    simp only [parsedRecord, getOr, LookupEnv_copyenv]
    cases hl : LookupEnv raw "CIRCLE_BRANCH" with
    | none => decide
    | some v => exact hb v hl
  rw [normalise_of_not_fold ha0] at h1
  have hlook := exportEnv_lookup (UniqueKeys_copyenv raw) h1
  have hup : ToUpper "development" = "DEVELOPMENT" := by decide
  simp only [hup, LookupEnv_copyenv] at hlook
  constructor
  · apply normalise_of_not_fold
    rw [hc2]
    simp only [parsedRecord, getOr]
    rw [hlook "CIRCLE_BRANCH"]
    have e1 : "DEVELOPMENT" ++ "_" ++ "CIRCLE_BRANCH" = "DEVELOPMENT_CIRCLE_BRANCH" := by decide
    rw [e1]
    cases hl : LookupEnv raw "DEVELOPMENT_CIRCLE_BRANCH" with
    | some v => exact ho v hl
    | none =>
      cases hl2 : LookupEnv raw "CIRCLE_BRANCH" with
      | none => decide
      | some v => exact hb v hl2
  · intro hr hd
    have e2 : "DEVELOPMENT" ++ "_" ++ "region" = "DEVELOPMENT_region" := by decide
    have hreg : LookupEnv p1.envs "region" = none := by
      rw [hlook "region", e2, hd, hr]
    have : c2.Region = "us-east-1" := by
      rw [hc2]; simp [parsedRecord, getOr, hreg]
    unfold normalise
    split <;> simpa using this

/-- Witness of `init_development`: the environment that sets only
`projectName=acme` and `alertEmail=a@x.com`. -/
theorem init_development_witness :
    (init exportNames ["projectName=acme", "alertEmail=a@x.com"]).value?
        = some (acmeConfig "development" "us-east-1") ∧
      (acmeConfig "development" "us-east-1").AppEnv = "development" ∧
      (acmeConfig "development" "us-east-1").Region = "us-east-1" :=
  have hw := init_development exportNames ["projectName=acme", "alertEmail=a@x.com"]
    (acmeConfig "development" "us-east-1") (by decide)
    (fun v hv => by simp [show LookupEnv ["projectName=acme", "alertEmail=a@x.com"]
        "CIRCLE_BRANCH" = none from by decide] at hv)
    (fun v hv => by simp [show LookupEnv ["projectName=acme", "alertEmail=a@x.com"]
        "DEVELOPMENT_CIRCLE_BRANCH" = none from by decide] at hv)
  ⟨by decide, hw.1, hw.2 (by decide) (by decide)⟩

/-- C2, counterexample: the required variables are set and `CIRCLE_BRANCH` is
absent, yet `DEVELOPMENT_CIRCLE_BRANCH=production` makes the final `AppEnv`
`production`. -/
theorem init_development_overridden :
    LookupEnv ["projectName=acme", "alertEmail=a@x.com",
        "DEVELOPMENT_CIRCLE_BRANCH=production"] "CIRCLE_BRANCH" = none ∧
    (init exportNames ["projectName=acme", "alertEmail=a@x.com",
        "DEVELOPMENT_CIRCLE_BRANCH=production"]).value?.map config.AppEnv
      = some "production" := by
  decide

/-! ## C3 -/

/-- C3 (as amended): when a run of `init` returns, every variable named by
the override prefix (the upper-cased `AppEnv` of the first pass), `_` and `x`
with value `v` at the start has given its value to the variable `x` at the
end, whatever `x` held before, provided `x` is not one of the seven names
that `config.Export` sets afterwards; for `x = region` the final `Region` is
`v` as well. -/
theorem init_override (order raw : List String) (c c1 : config) (x v : String)
    (h : (init order raw).value? = some c) (h1 : firstPass raw = .ok c1)
    (hx : LookupEnv raw (ToUpper c1.AppEnv ++ "_" ++ x) = some v)
    (hn : x ∉ exportNames) :
    LookupEnv (init order raw).proc.envs x = some v ∧ (x = "region" → c.Region = v) := by
  obtain ⟨c0, p1, c2, h0, he, h2, rfl, -, hi⟩ := init_eq_ok h
  obtain ⟨c0b, h0b, rfl⟩ := firstPass_eq_ok h1
  rw [h0] at h0b
  cases h0b
  have hlook := exportEnv_lookup (UniqueKeys_copyenv raw) he x
  simp only [LookupEnv_copyenv, hx] at hlook
  constructor
  · rw [hi]
    simp only [Result.proc]
    rw [Export_lookup _ _ _ _ hn, hlook]
  · rintro rfl
    have hc2 := Parse_eq_ok h2
    have : c2.Region = v := by
      rw [hc2]; simp [parsedRecord, getOr, hlook]
    unfold normalise
    split <;> simpa using this

/-- Witness of `init_override`: `CIRCLE_BRANCH=production` with
`PRODUCTION_region=eu-west-1` over a generic `region=us-east-2`. -/
theorem init_override_witness :
    LookupEnv (init exportNames ["projectName=acme", "alertEmail=a@x.com",
        "CIRCLE_BRANCH=production", "region=us-east-2",
        "PRODUCTION_region=eu-west-1"]).proc.envs "region" = some "eu-west-1" ∧
      ("region" = "region" → (acmeConfig "production" "eu-west-1").Region = "eu-west-1") :=
  init_override exportNames ["projectName=acme", "alertEmail=a@x.com",
      "CIRCLE_BRANCH=production", "region=us-east-2", "PRODUCTION_region=eu-west-1"]
    (acmeConfig "production" "eu-west-1") (acmeConfig "production" "us-east-2")
    "region" "eu-west-1" (by decide) (by decide) (by decide) (by decide)

/-- C3, counterexample: `DEVELOPMENT_AWS_REGION=eu-west-1` is present under the
override prefix `DEVELOPMENT`, the run returns, and at the end `AWS_REGION` is
`us-east-1`, the value stored by `config.Export`. -/
theorem init_override_lost :
    firstPass ["projectName=acme", "alertEmail=a@x.com", "DEVELOPMENT_AWS_REGION=eu-west-1"]
      = .ok (acmeConfig "development" "us-east-1") ∧
    (init exportNames ["projectName=acme", "alertEmail=a@x.com",
        "DEVELOPMENT_AWS_REGION=eu-west-1"]).value? = some (acmeConfig "development" "us-east-1") ∧
    LookupEnv (init exportNames ["projectName=acme", "alertEmail=a@x.com",
        "DEVELOPMENT_AWS_REGION=eu-west-1"]).proc.envs "AWS_REGION" = some "us-east-1" := by
  decide

/-! ## C8 -/

theorem exportEnv_ne_exit (appenv : String) (p : Proc) (code : Nat) (q : Proc) :
    exportEnv appenv p ≠ .exit code q := by
  unfold exportEnv
  exact exportEnvLoop_ne_exit _ _ _ _ _

/-- A variable that is set stays set through `exportEnv`. -/
theorem exportEnv_keeps {appenv : String} {p q : Proc} (hu : UniqueKeys p.envs)
    (h : exportEnv appenv p = .ok none q) (x : String) (hx : LookupEnv p.envs x ≠ none) :
    LookupEnv q.envs x ≠ none := by
  rw [exportEnv_lookup hu h x]
  cases LookupEnv p.envs (ToUpper appenv ++ "_" ++ x) with
  | some v => simp
  | none => simpa using hx

/-- The loop of `exportEnv` returns an error exactly when the first entry
of the snapshot that it does not pass is one whose name starts with the
prefix and is rejected by `os.Setenv`. -/
theorem exportEnvLoop_error_iff (env : String) (snap : List String) (p : Proc) :
    (∃ msg q, exportEnvLoop env snap p = .ok (some msg) q) ↔
      ∃ s1 e s2, snap = s1 ++ e :: s2 ∧ (∀ x ∈ s1, entryOK env x = true) ∧
        entryRejected env e = true := by
  induction snap generalizing p with
  | nil => simp [exportEnvLoop]
  | cons e rest ih =>
    have hcons : ∀ (ok : entryOK env e = true) (rej : entryRejected env e = false),
        ((∃ s1 e2 s2, e :: rest = s1 ++ e2 :: s2 ∧ (∀ x ∈ s1, entryOK env x = true) ∧
          entryRejected env e2 = true) ↔
        (∃ s1 e2 s2, rest = s1 ++ e2 :: s2 ∧ (∀ x ∈ s1, entryOK env x = true) ∧
          entryRejected env e2 = true)) := by
      intro ok rej
      constructor
      · rintro ⟨s1, e2, s2, heq, hall, hrej⟩
        cases s1 with
        | nil =>
          simp only [List.nil_append, List.cons.injEq] at heq
          rw [← heq.1, rej] at hrej
          exact absurd hrej (by simp)
        | cons a s1 =>
          simp only [List.cons_append, List.cons.injEq] at heq
          exact ⟨s1, e2, s2, heq.2, fun x hx => hall x (by simp [hx]), hrej⟩
      · rintro ⟨s1, e2, s2, heq, hall, hrej⟩
        refine ⟨e :: s1, e2, s2, by simp [heq], ?_, hrej⟩
        intro x hx
        rcases List.mem_cons.1 hx with rfl | hx
        · exact ok
        · exact hall x hx
    rcases entry_cases env e with hk | ⟨key, value, hs, hp⟩ | ⟨key, value, hs, hp⟩
    · have hno : entryOK env e = false := by simp [entryOK, entryKey_eq_none hk]
      have hnr : entryRejected env e = false := by simp [entryRejected, entryKey_eq_none hk]
      rw [exportEnvLoop_panic rest p hk]
      refine ⟨fun ⟨msg, q, hq⟩ => by simp at hq, ?_⟩
      rintro ⟨s1, e2, s2, heq, hall, hrej⟩
      cases s1 with
      | nil =>
        simp only [List.nil_append, List.cons.injEq] at heq
        rw [← heq.1, hnr] at hrej
        exact absurd hrej (by simp)
      | cons a s1 =>
        simp only [List.cons_append, List.cons.injEq] at heq
        have := hall a (by simp)
        rw [← heq.1, hno] at this
        exact absurd this (by simp)
    · rw [exportEnvLoop_skip rest p hs hp, ih p]
      exact (hcons (by simp [entryOK, hs, hp]) (by simp [entryRejected, hs, hp])).symm
    · cases hset : Setenv (sliceFrom key (env.length + 1)) value p.envs with
      | error err =>
        have hv : setenvValid (sliceFrom key (env.length + 1)) value = false := by
          cases hvv : setenvValid (sliceFrom key (env.length + 1)) value with
          | false => rfl
          | true => simp [Setenv, hvv] at hset
        rw [exportEnvLoop_fail rest p hs hp hset]
        constructor
        · intro _
          exact ⟨[], e, rest, rfl, by simp, by simp [entryRejected, hs, hp, hv]⟩
        · intro _
          exact ⟨_, _, rfl⟩
      | ok envs2 =>
        have hv := (Setenv_eq_ok hset).1
        rw [exportEnvLoop_set rest p hs hp hset, ih _]
        exact (hcons (by simp [entryOK, hs, hp, hv]) (by simp [entryRejected, hs, hp, hv])).symm

/-- C8 (as amended): `init` stops with `statusBadEnv` exactly when a required
variable (`projectName` or `alertEmail`) is absent from the environment it
starts from, before the re-prefixing step, or when `exportEnv` returns an
error, that is when the first entry it does not pass has a name that starts
with the override prefix and is rejected by `os.Setenv`; the second parse
adds no failure.  Any exit of `init` has status `statusBadEnv` and happens in
the part of `init` that precedes `cfg.Export()`. -/
theorem init_exit_iff (order raw : List String) :
    ((∃ p, init order raw = .exit statusBadEnv p) ↔
      (LookupEnv raw "projectName" = none ∨ LookupEnv raw "alertEmail" = none ∨
        ∃ c1, firstPass raw = .ok c1 ∧
          ∃ s1 e s2, Environ (copyenv raw) = s1 ++ e :: s2 ∧
            (∀ x ∈ s1, entryOK (ToUpper c1.AppEnv) x = true) ∧
            entryRejected (ToUpper c1.AppEnv) e = true)) ∧
    (∀ code p, init order raw = .exit code p →
      code = statusBadEnv ∧ resolve raw = .exit code p) := by
  have hi : init order raw = match resolve raw with
      | .ok cfg p => .ok cfg (cfg.Export order p)
      | .exit code p => .exit code p
      | .panic p => .panic p := rfl
  have hres : resolve raw = (match Parse (copyenv raw) with
    | .error err =>
      .exit statusBadEnv
        (Proc.print { envs := copyenv raw, stdout := "" }
          ("failed to parse environment variables: " ++ err))
    | .ok cfg =>
      match exportEnv (normalise cfg).AppEnv { envs := copyenv raw, stdout := "" } with
      | .panic p => .panic p
      | .exit code p => .exit code p
      | .ok (some err) p => .exit statusBadEnv (p.print (err ++ "\n"))
      | .ok none p =>
        match Parse p.envs with
        | .error err =>
          .exit statusBadEnv (p.print ("failed to parse environment variables: " ++ err))
        | .ok cfg => .ok (normalise cfg) p) := rfl
  have hfp : firstPass raw = match Parse (copyenv raw) with
      | .error err => .error err
      | .ok c => .ok (normalise c) := rfl
  have herr : ∀ a : String,
      (∃ msg q, exportEnv a { envs := copyenv raw, stdout := "" } = .ok (some msg) q) ↔
        ∃ s1 e s2, Environ (copyenv raw) = s1 ++ e :: s2 ∧
          (∀ x ∈ s1, entryOK (ToUpper a) x = true) ∧ entryRejected (ToUpper a) e = true :=
    fun a => exportEnvLoop_error_iff (ToUpper a) _ _
  cases h0 : Parse (copyenv raw) with
  | error err =>
    rw [h0] at hres hfp
    simp only at hres
    have hmiss := (Parse_error_iff (copyenv raw)).1 ⟨err, h0⟩
    simp only [LookupEnv_copyenv] at hmiss
    rw [hi, hres]
    refine ⟨⟨fun _ => ?_, fun _ => ⟨_, rfl⟩⟩, ?_⟩
    · rcases hmiss with h | h
      · exact Or.inl h
      · exact Or.inr (Or.inl h)
    · intro code p hp
      simp only [Result.exit.injEq] at hp
      exact ⟨hp.1.symm, by rw [hp.1, hp.2]⟩
  | ok c0 =>
    rw [h0] at hres hfp
    simp only at hres hfp
    have hpres := (Parse_ok_iff (copyenv raw)).1 ⟨c0, h0⟩
    have hpres2 := hpres
    simp only [LookupEnv_copyenv] at hpres2
    cases h1 : exportEnv (normalise c0).AppEnv { envs := copyenv raw, stdout := "" } with
    | exit code q => exact absurd h1 (exportEnv_ne_exit _ _ _ _)
    | panic q =>
      rw [h1] at hres
      simp only at hres
      rw [hi, hres]
      refine ⟨⟨fun ⟨p, hp⟩ => by simp at hp, ?_⟩, fun code p hp => by simp at hp⟩
      rintro (h | h | ⟨c1, hc1, hdec⟩)
      · exact absurd h hpres2.1
      · exact absurd h hpres2.2
      · rw [hfp] at hc1
        cases hc1
        obtain ⟨msg, q2, he⟩ := (herr _).2 hdec
        rw [h1] at he
        simp at he
    | ok r q =>
      rw [h1] at hres
      cases r with
      | some msg =>
        simp only at hres
        rw [hi, hres]
        refine ⟨⟨fun _ => Or.inr (Or.inr ⟨normalise c0, hfp, (herr _).1 ⟨msg, q, h1⟩⟩),
          fun _ => ⟨_, rfl⟩⟩, ?_⟩
        intro code p hp
        simp only [Result.exit.injEq] at hp
        exact ⟨hp.1.symm, by rw [hp.1, hp.2]⟩
      | none =>
        simp only at hres
        have hk1 := exportEnv_keeps (UniqueKeys_copyenv raw) h1 "projectName" hpres.1
        have hk2 := exportEnv_keeps (UniqueKeys_copyenv raw) h1 "alertEmail" hpres.2
        obtain ⟨c2, h2⟩ := (Parse_ok_iff q.envs).2 ⟨hk1, hk2⟩
        rw [h2] at hres
        simp only at hres
        rw [hi, hres]
        refine ⟨⟨fun ⟨p, hp⟩ => by simp at hp, ?_⟩, fun code p hp => by simp at hp⟩
        rintro (h | h | ⟨c1, hc1, hdec⟩)
        · exact absurd h hpres2.1
        · exact absurd h hpres2.2
        · rw [hfp] at hc1
          cases hc1
          obtain ⟨msg, q2, he⟩ := (herr _).2 hdec
          rw [h1] at he
          simp at he

/-- Witness of `init_exit_iff`: an environment without `alertEmail` stops with
`statusBadEnv`, in the part of `init` before `cfg.Export()`. -/
theorem init_exit_iff_witness :
    (∃ p, init exportNames ["projectName=acme"] = .exit statusBadEnv p) ∧
    (statusBadEnv = statusBadEnv ∧ resolve ["projectName=acme"] = .exit statusBadEnv
      { envs := ["projectName=acme"],
        stdout := "failed to parse environment variables: required environment variable \"alertEmail\" is not set" }) :=
  ⟨(init_exit_iff exportNames ["projectName=acme"]).1.2 (Or.inr (Or.inl (by decide))),
   (init_exit_iff exportNames ["projectName=acme"]).2 _ _ (by decide)⟩

/-- C8, counterexample: `projectName` is supplied only as
`DEVELOPMENT_projectName`; the run stops with `statusBadEnv` at the first
parse. -/
theorem init_prefixed_required_fails :
    init exportNames ["alertEmail=a@x.com", "DEVELOPMENT_projectName=acme"] =
      .exit statusBadEnv
        { envs := ["alertEmail=a@x.com", "DEVELOPMENT_projectName=acme"],
          stdout := "failed to parse environment variables: required environment variable \"projectName\" is not set" } := by
  decide

/-! ## C5: `bucketExists` -/

/-- C5: `bucketExists` is a total function into the booleans; it answers
`true` exactly when `HeadBucket` returned no error; for an error whose code is
`NoSuchBucket` it answers `false` and logs nothing; for every other error it
answers `false` after logging one warning. -/
theorem bucketExists_spec (w : World) (bucket : String) :
    ((bucketExists w bucket).1 = true ↔ w.headBucket bucket = none) ∧
    (∀ err, w.headBucket bucket = some err → err.awsCode = some "NoSuchBucket" →
      bucketExists w bucket = (false, [.headBucket bucket])) ∧
    (∀ err, w.headBucket bucket = some err → err.awsCode ≠ some "NoSuchBucket" →
      bucketExists w bucket = (false, [.headBucket bucket,
        .logPrintf ("failed to call HeadBucket: " ++ bucket ++ " -> " ++ err.text)])) := by
  refine ⟨?_, ?_, ?_⟩
  · unfold bucketExists
    cases h : w.headBucket bucket with
    | none => simp
    | some err =>
      cases hc : err.awsCode with
      | none => simp [hc]
      | some code => by_cases hcode : code = ErrCodeNoSuchBucket <;> simp [hc, hcode]
  · intro err h hc
    simp [bucketExists, h, hc, ErrCodeNoSuchBucket]
  · intro err h hc
    unfold bucketExists
    simp only [h]
    cases hcode : err.awsCode with
    | none => rfl
    | some code =>
      have : code ≠ ErrCodeNoSuchBucket := by
        intro e; apply hc; rw [hcode, e]; rfl
      simp [this]

/-- Witness of `bucketExists_spec`: a `NoSuchBucket` answer and an
`AccessDenied` answer. -/
theorem bucketExists_spec_witness :
    bucketExists (calmWorld (some ⟨"NoSuchBucket: gone", some "NoSuchBucket"⟩) .found) "b"
      = (false, [.headBucket "b"]) ∧
    bucketExists (calmWorld (some ⟨"AccessDenied: no", some "AccessDenied"⟩) .found) "b"
      = (false, [.headBucket "b",
          .logPrintf ("failed to call HeadBucket: " ++ "b" ++ " -> " ++ "AccessDenied: no")]) :=
  ⟨(bucketExists_spec (calmWorld (some ⟨"NoSuchBucket: gone", some "NoSuchBucket"⟩) .found)
      "b").2.1 ⟨"NoSuchBucket: gone", some "NoSuchBucket"⟩ rfl rfl,
   (bucketExists_spec (calmWorld (some ⟨"AccessDenied: no", some "AccessDenied"⟩) .found)
      "b").2.2 ⟨"AccessDenied: no", some "AccessDenied"⟩ rfl (by decide)⟩

/-! ## C4: `InitBackend` -/

/-- C4: once the session is created, `InitBackend` makes one write, to
`backend.tf`; with `bucket` the project name, `-`, the environment and
`-backend`, and `stateFile` the bucket name followed by `.tfstate`, the data
written is the remote template filled with `bucket`, `stateFile` and the
region when the probe answers `true`, and the local template with path
`stateFile` when it answers `false`; nothing else enters the data. -/
theorem InitBackend_writes (cfg : config) (w : World)
    (hs : w.newSession cfg.Region = none) :
    ((bucketExists w (cfg.ProjectName ++ "-" ++ cfg.AppEnv ++ "-backend")).1 = true →
      (InitBackend cfg w).2 =
        [Event.newSession cfg.Region]
          ++ (bucketExists w (cfg.ProjectName ++ "-" ++ cfg.AppEnv ++ "-backend")).2
          ++ [Event.writeFile "backend.tf"
                (remoteTemplate (cfg.ProjectName ++ "-" ++ cfg.AppEnv ++ "-backend")
                  (cfg.ProjectName ++ "-" ++ cfg.AppEnv ++ "-backend" ++ ".tfstate") cfg.Region)
                0o644]) ∧
    ((bucketExists w (cfg.ProjectName ++ "-" ++ cfg.AppEnv ++ "-backend")).1 = false →
      (InitBackend cfg w).2 =
        [Event.newSession cfg.Region]
          ++ (bucketExists w (cfg.ProjectName ++ "-" ++ cfg.AppEnv ++ "-backend")).2
          ++ [Event.writeFile "backend.tf"
                (localTemplate (cfg.ProjectName ++ "-" ++ cfg.AppEnv ++ "-backend" ++ ".tfstate"))
                0o644]) := by
  constructor
  · intro hp
    unfold InitBackend
    simp only [hs, hp]
    cases w.writeFile "backend.tf" _ <;> simp [remoteTemplate]
  · intro hp
    unfold InitBackend
    simp only [hs, hp]
    cases w.writeFile "backend.tf" _ <;> simp [localTemplate]

/-- Witness of `InitBackend_writes`: project `acme`, environment
`development`; without the bucket the local template with path
`acme-development-backend.tfstate` is written, with the bucket the remote
template. -/
theorem InitBackend_writes_witness :
    (InitBackend (acmeConfig "development" "us-east-1")
        (calmWorld (some ⟨"NoSuchBucket: gone", some "NoSuchBucket"⟩) .found)).2 =
      [Event.newSession "us-east-1", Event.headBucket "acme-development-backend",
       Event.writeFile "backend.tf"
        "terraform \x7b\n\tbackend \"local\" \x7b\n\t\tpath = \"acme-development-backend.tfstate\"\n\t\x7d\n\x7d"
        0o644] ∧
    (InitBackend (acmeConfig "development" "us-east-1") (calmWorld none .found)).2 =
      [Event.newSession "us-east-1", Event.headBucket "acme-development-backend",
       Event.writeFile "backend.tf"
        "terraform \x7b\n\tbackend \"s3\" \x7b\n\t\tbucket = \"acme-development-backend\"\n\t\tkey    = \"acme-development-backend.tfstate\"\n\t\tregion = \"us-east-1\"\n\t\x7d\n\x7d"
        0o644] :=
  ⟨(InitBackend_writes (acmeConfig "development" "us-east-1")
      (calmWorld (some ⟨"NoSuchBucket: gone", some "NoSuchBucket"⟩) .found) rfl).2 (by decide),
   (InitBackend_writes (acmeConfig "development" "us-east-1")
      (calmWorld none .found) rfl).1 (by decide)⟩

/-! ## C6: `SaveBackend` -/

/-- C6 (as amended): when `os.Stat` reports the state file named by the
project name, `-`, the environment and `-backend.tfstate` as not existing (an
error that satisfies `os.IsNotExist`), `SaveBackend` returns no error and its
only call is the `os.Stat` itself: no session, no probe, no upload; in every
other case, the file being there included, once the session is created and
the probe answers that the bucket is absent, it returns no error and uploads
nothing. -/
theorem SaveBackend_skips (cfg : config) (w : World) :
    (w.stat (cfg.ProjectName ++ "-" ++ cfg.AppEnv ++ "-backend.tfstate") = .notExist →
      SaveBackend cfg w =
        (none, [Event.stat (cfg.ProjectName ++ "-" ++ cfg.AppEnv ++ "-backend.tfstate")])) ∧
    (w.stat (cfg.ProjectName ++ "-" ++ cfg.AppEnv ++ "-backend.tfstate") ≠ .notExist →
      w.newSession cfg.Region = none →
      (bucketExists w (cfg.ProjectName ++ "-" ++ cfg.AppEnv ++ "-backend")).1 = false →
      (SaveBackend cfg w).1 = none ∧ ∀ ev ∈ (SaveBackend cfg w).2, ev.isUpload = false) := by
  constructor
  · intro h
    simp [SaveBackend, h]
  · intro h hs hp
    have hev : ∀ ev ∈ (bucketExists w (cfg.ProjectName ++ "-" ++ cfg.AppEnv ++ "-backend")).2,
        ev.isUpload = false := by
      intro ev hm
      unfold bucketExists at hm
      cases hb : w.headBucket (cfg.ProjectName ++ "-" ++ cfg.AppEnv ++ "-backend") with
      | none => simp [hb] at hm; subst hm; rfl
      | some err =>
        simp only [hb] at hm
        cases hc : err.awsCode with
        | none =>
          simp [hc] at hm
          rcases hm with rfl | rfl <;> rfl
        | some code =>
          simp only [hc] at hm
          by_cases hcode : code = ErrCodeNoSuchBucket
          · simp [hcode] at hm; subst hm; rfl
          · simp [hcode] at hm
            rcases hm with rfl | rfl <;> rfl
    unfold SaveBackend
    simp only [h, if_false, hs, hp]
    refine ⟨by simp, ?_⟩
    intro ev hm
    simp at hm
    rcases hm with rfl | rfl | hm
    · rfl
    · rfl
    · exact hev ev hm

/-- Witness of `SaveBackend_skips`: project `acme` in `development`, first
without a state file, then with a state file and without the bucket. -/
theorem SaveBackend_skips_witness :
    SaveBackend (acmeConfig "development" "us-east-1") (calmWorld none .notExist) =
      (none, [Event.stat ("acme" ++ "-" ++ "development" ++ "-backend.tfstate")]) ∧
    ((SaveBackend (acmeConfig "development" "us-east-1")
        (calmWorld (some ⟨"NotFound: Not Found", some "NotFound"⟩) .found)).1 = none ∧
      ∀ ev ∈ (SaveBackend (acmeConfig "development" "us-east-1")
        (calmWorld (some ⟨"NotFound: Not Found", some "NotFound"⟩) .found)).2,
          ev.isUpload = false) :=
  ⟨(SaveBackend_skips (acmeConfig "development" "us-east-1") (calmWorld none .notExist)).1 rfl,
   (SaveBackend_skips (acmeConfig "development" "us-east-1")
      (calmWorld (some ⟨"NotFound: Not Found", some "NotFound"⟩) .found)).2
        (by decide) rfl (by decide)⟩

/-- C6, counterexample: the project is named `acme/site` and `acme` is a
regular file, so the state file `acme/site-development-backend.tfstate` does
not exist while `os.Stat` fails with `ENOTDIR`, which `os.IsNotExist` does not
accept; `SaveBackend` goes on, creates the session and probes the bucket. -/
theorem SaveBackend_probes_without_file :
    (notDirWorld.stat "acme/site-development-backend.tfstate").fileAbsent = true ∧
    SaveBackend siteConfig notDirWorld =
      (none,
        [Event.stat "acme/site-development-backend.tfstate",
         Event.newSession "us-east-1",
         Event.headBucket "acme/site-development-backend",
         Event.logPrintf
          "failed to call HeadBucket: acme/site-development-backend -> NotFound: Not Found"]) := by
  decide

/-! ## C10: `save` -/

/-- What `save` leaves in the file when it returns no error: the bytes of the
reader, followed by the bytes of the previous file past that length. -/
theorem save_content (r : Reader) (path : String) (ff : FileFaults) (fs : Files)
    (h : (save r path ff fs).1 = none) :
    (save r path ff fs).2.1 path = some (r.data ++ ((fs path).getD []).drop r.data.length) := by
  unfold save at h ⊢
  cases ho : ff.openErr path with
  | some err => simp [ho] at h
  | none =>
    simp only [ho] at h ⊢
    cases hw : ff.writeLimit path with
    | none =>
      simp only [hw] at h ⊢
      cases hr : r.err with
      | some e => simp [hr] at h
      | none => simp [Files.set, overwrite]
    | some lim =>
      obtain ⟨n, werr⟩ := lim
      simp only [hw] at h ⊢
      by_cases hn : n < r.data.length
      · simp [hn] at h
      · simp only [hn, if_false] at h ⊢
        cases hr : r.err with
        | some e => simp [hr] at h
        | none => simp [Files.set, overwrite]

/-- C10, failing input: the destination already holds the six bytes `abcdef`
and the response body delivers the two bytes `xy`; `save`, and `download`
through it, return no error and the file then holds `xycdef`, not `xy`. -/
theorem save_keeps_stale_tail :
    (save { data := [0x78, 0x79], err := none } "release/grace-inventory-lambda.zip" noFaults
        (oneFile "release/grace-inventory-lambda.zip" [0x61, 0x62, 0x63, 0x64, 0x65, 0x66])).1
      = none ∧
    (save { data := [0x78, 0x79], err := none } "release/grace-inventory-lambda.zip" noFaults
        (oneFile "release/grace-inventory-lambda.zip" [0x61, 0x62, 0x63, 0x64, 0x65, 0x66])).2.1
        "release/grace-inventory-lambda.zip"
      = some [0x78, 0x79, 0x63, 0x64, 0x65, 0x66] ∧
    (download "https://github.com/GSA/grace-inventory/releases/download/v0.1.7/grace-inventory-lambda.zip"
        "release/grace-inventory-lambda.zip" (calmNet [0x78, 0x79]) noFaults
        (oneFile "release/grace-inventory-lambda.zip" [0x61, 0x62, 0x63, 0x64, 0x65, 0x66])).1
      = none ∧
    (download "https://github.com/GSA/grace-inventory/releases/download/v0.1.7/grace-inventory-lambda.zip"
        "release/grace-inventory-lambda.zip" (calmNet [0x78, 0x79]) noFaults
        (oneFile "release/grace-inventory-lambda.zip" [0x61, 0x62, 0x63, 0x64, 0x65, 0x66])).2.1
        "release/grace-inventory-lambda.zip"
      = some [0x78, 0x79, 0x63, 0x64, 0x65, 0x66] := by
  decide

/-! ## C7: running the resolution twice -/

theorem init_of_steps (order raw : List String) {c0 c2 : config} {q : Proc}
    (h0 : Parse (copyenv raw) = .ok c0)
    (h1 : exportEnv (normalise c0).AppEnv { envs := copyenv raw, stdout := "" } = .ok none q)
    (h2 : Parse q.envs = .ok c2) :
    (init order raw).value? = some (normalise c2) := by
  simp [init, resolve, h0, h1, h2, Result.value?]

theorem mem_copyenvFrom {seen envs : List String} {e : String}
    (h : e ∈ copyenvFrom seen envs) : e = "" ∨ e ∈ envs := by
  induction envs generalizing seen with
  | nil => simp [copyenvFrom] at h
  | cons s rest ih =>
    unfold copyenvFrom at h
    cases hs : entryKey s with
    | none =>
      simp only [hs, List.mem_cons] at h
      rcases h with h | h
      · exact Or.inr (by simp [h])
      · rcases ih h with h | h
        · exact Or.inl h
        · exact Or.inr (by simp [h])
    | some k =>
      simp only [hs] at h
      by_cases hk : k ∈ seen
      · simp only [hk, if_true, List.mem_cons] at h
        rcases h with h | h
        · exact Or.inl h
        · rcases ih h with h | h
          · exact Or.inl h
          · exact Or.inr (by simp [h])
      · simp only [hk, if_false, List.mem_cons] at h
        rcases h with h | h
        · exact Or.inr (by simp [h])
        · rcases ih h with h | h
          · exact Or.inl h
          · exact Or.inr (by simp [h])

theorem mem_Environ {envs : List String} {e : String} :
    e ∈ Environ envs ↔ e ∈ envs ∧ e ≠ "" := by
  simp [Environ]

theorem findValue_some_mem {key v : String} {envs : List String}
    (h : findValue key envs = some v) : ∃ e ∈ envs, entryKey e = some key := by
  induction envs with
  | nil => simp [findValue] at h
  | cons s rest ih =>
    by_cases hs : entryKey s = some key
    · exact ⟨s, by simp, hs⟩
    · simp only [findValue, hs, if_false] at h
      obtain ⟨e, hm, hk⟩ := ih h
      exact ⟨e, by simp [hm], hk⟩

theorem LookupEnv_some_mem {key v : String} {envs : List String}
    (h : LookupEnv envs key = some v) : ∃ e ∈ envs, entryKey e = some key := by
  unfold LookupEnv at h
  by_cases hk : key = ""
  · simp [hk] at h
  · simp only [hk, if_false] at h
    exact findValue_some_mem h

theorem exportStep_mem (c : config) (p : Proc) (k e : String)
    (h : e ∈ (exportStep c p k).envs) :
    e ∈ p.envs ∨ ∃ k2 ∈ exportNames, ∃ v, setenvValid k2 v = true ∧ e = k2 ++ "=" ++ v := by
  unfold exportStep at h
  cases hv : c.vars.lookup k with
  | none => simp [hv] at h; exact Or.inl h
  | some v =>
    have hk : k ∈ exportNames := by
      rw [← vars_keys c]; exact lookup_mem_keys k v _ hv
    simp only [hv, Proc.print] at h
    cases hs : Setenv k v p.envs with
    | error err => simp only [hs] at h; exact Or.inl h
    | ok envs2 =>
      simp only [hs] at h
      obtain ⟨hvalid, heq⟩ := Setenv_eq_ok hs
      rw [heq] at h
      rcases mem_setEntry h with h | h
      · exact Or.inl h
      · exact Or.inr ⟨k, hk, v, hvalid, h⟩

theorem Export_mem (c : config) (order : List String) (p : Proc) (e : String)
    (h : e ∈ (c.Export order p).envs) :
    e ∈ p.envs ∨ ∃ k2 ∈ exportNames, ∃ v, setenvValid k2 v = true ∧ e = k2 ++ "=" ++ v := by
  unfold config.Export at h
  induction order generalizing p with
  | nil => exact Or.inl h
  | cons k ks ih =>
    simp only [List.foldl_cons] at h
    rcases ih _ h with h | h
    · exact exportStep_mem c p k e h
    · exact Or.inr h

/-- No name set by `config.Export` starts with an override prefix. -/
theorem exportNames_not_prefixed (env : String)
    (henv : env = "DEVELOPMENT" ∨ env = "PRODUCTION") (k : String) (hk : k ∈ exportNames) :
    HasPrefix k (env ++ "_") = false := by
  simp only [exportNames, List.mem_cons, List.mem_singleton, List.not_mem_nil, or_false] at hk
  rcases henv with rfl | rfl <;>
    rcases hk with rfl | rfl | rfl | rfl | rfl | rfl | rfl <;> decide

theorem HasPrefix_nested {key pre : String} (h1 : HasPrefix key pre = true)
    (h2 : HasPrefix (sliceFrom key pre.length) pre = true) :
    HasPrefix key (pre ++ pre) = true := by
  have e1 := (prefix_slice_iff key pre _).1 ⟨h1, rfl⟩
  have e2 := (prefix_slice_iff (sliceFrom key pre.length) pre _).1 ⟨h2, rfl⟩
  rw [e2, ← String.append_assoc] at e1
  exact ((prefix_slice_iff key (pre ++ pre) _).2 e1).1

theorem HasPrefix_append (pre x : String) : HasPrefix (pre ++ x) pre = true :=
  ((prefix_slice_iff (pre ++ x) pre x).2 rfl).1

/-- When `init` returns: both required variables are set at the start, and
the loop of `exportEnv` passes every entry of the snapshot. -/
theorem init_returns_iff (order raw : List String) :
    (∃ c, (init order raw).value? = some c) ↔
      ∃ c1, firstPass raw = .ok c1 ∧
        ∀ e ∈ Environ (copyenv raw), entryOK (ToUpper c1.AppEnv) e = true := by
  constructor
  · rintro ⟨c, h⟩
    obtain ⟨c0, p1, c2, h0, he, -, -, -, -⟩ := init_eq_ok h
    refine ⟨normalise c0, by simp [firstPass, h0], ?_⟩
    exact (exportEnvLoop_ok_iff _ _ _).1 ⟨p1, he⟩
  · rintro ⟨c1, h1, hall⟩
    obtain ⟨c0, h0, rfl⟩ := firstPass_eq_ok h1
    obtain ⟨q, hq⟩ := (exportEnvLoop_ok_iff (ToUpper (normalise c0).AppEnv) _
      { envs := copyenv raw, stdout := "" }).2 hall
    have hq2 : exportEnv (normalise c0).AppEnv { envs := copyenv raw, stdout := "" }
        = .ok none q := hq
    have hpres := (Parse_ok_iff (copyenv raw)).1 ⟨c0, h0⟩
    have hk1 := exportEnv_keeps (UniqueKeys_copyenv raw) hq2 "projectName" hpres.1
    have hk2 := exportEnv_keeps (UniqueKeys_copyenv raw) hq2 "alertEmail" hpres.2
    obtain ⟨c2, h2⟩ := (Parse_ok_iff q.envs).2 ⟨hk1, hk2⟩
    exact ⟨normalise c2, init_of_steps order raw h0 hq2 h2⟩

/-- C7 (as amended): when a run of `init` returns, the re-prefixing step has
left the override prefix as it was for the first pass, and no variable name of
the initial environment starts with the prefix twice (prefix, `_`, prefix,
`_`), then a second run of `init` on the environment left by the first run
returns as well and yields the same final record. -/
theorem init_twice (order order2 raw : List String) (c c1 : config)
    (h : (init order raw).value? = some c) (h1 : firstPass raw = .ok c1)
    (hsame : ToUpper c.AppEnv = ToUpper c1.AppEnv)
    (hnest : ∀ e ∈ raw, ∀ k, entryKey e = some k →
      HasPrefix k ((ToUpper c1.AppEnv ++ "_") ++ (ToUpper c1.AppEnv ++ "_")) = false) :
    (init order2 (Environ (init order raw).proc.envs)).value? = some c := by
  obtain ⟨c0, p1, c2, h0, he, h2, rfl, -, hi⟩ := init_eq_ok h
  obtain ⟨c0b, h0b, rfl⟩ := firstPass_eq_ok h1
  rw [h0] at h0b
  cases h0b
  rw [hi]
  simp only [Result.proc]
  -- notation for the proof
  generalize hP : ToUpper (normalise c0).AppEnv = P at hsame hnest
  have hPcases : P = "DEVELOPMENT" ∨ P = "PRODUCTION" := hP ▸ ToUpper_normalise c0
  have hlook1 := exportEnv_lookup (UniqueKeys_copyenv raw) he
  simp only [hP, LookupEnv_copyenv] at hlook1
  -- no variable of the initial environment is named under the doubled prefix
  have hnone : ∀ x, LookupEnv raw (P ++ "_" ++ (P ++ "_" ++ x)) = none := by
    intro x
    cases hl : LookupEnv raw (P ++ "_" ++ (P ++ "_" ++ x)) with
    | none => rfl
    | some v =>
      obtain ⟨e, hm, hk⟩ := LookupEnv_some_mem hl
      have := hnest e hm _ hk
      have e3 : P ++ "_" ++ (P ++ "_" ++ x) = (P ++ "_") ++ (P ++ "_") ++ x := by
        simp [String.append_assoc]
      rw [e3, HasPrefix_append] at this
      exact absurd this (by simp)
  -- lookups in the environment left by the first run
  have hlookX : ∀ k, k ∉ exportNames →
      LookupEnv (copyenv (Environ ((normalise c2).Export order p1).envs)) k
        = LookupEnv p1.envs k := by
    intro k hk
    rw [LookupEnv_copyenv, LookupEnv_Environ, Export_lookup _ _ _ _ hk]
  have hpref : ∀ x, P ++ "_" ++ x ∉ exportNames := by
    intro x hm
    have := exportNames_not_prefixed P hPcases _ hm
    rw [HasPrefix_append] at this
    exact absurd this (by simp)
  -- first parse of the second run
  have hparse : Parse (copyenv (Environ ((normalise c2).Export order p1).envs)) = .ok c2 := by
    rw [← h2]
    apply Parse_congr
    intro k hk
    apply hlookX
    revert k
    decide
  -- the loop of the second run ends without error
  have hok : ∃ q2, exportEnv (normalise c2).AppEnv
      { envs := copyenv (Environ ((normalise c2).Export order p1).envs), stdout := "" }
        = .ok none q2 := by
    unfold exportEnv
    simp only [hsame]
    rw [exportEnvLoop_ok_iff]
    intro e hm
    obtain ⟨hm1, hne⟩ := mem_Environ.1 hm
    rcases mem_copyenvFrom hm1 with h | hm2
    · exact absurd h hne
    · obtain ⟨hm3, -⟩ := mem_Environ.1 hm2
      rcases Export_mem _ _ _ _ hm3 with hm4 | ⟨k2, hk2, v, hvalid, rfl⟩
      · unfold exportEnv at he
        simp only [hP] at he
        rcases exportEnvLoop_mem _ _ _ _ he e hm4 with hm5 | ⟨e0, hm5, key, value, hs, hp, hv, rfl⟩
        · exact (exportEnvLoop_ok_iff P _ _).1 ⟨p1, he⟩ e (mem_Environ.2 ⟨hm5, hne⟩)
        · have hx := ((setenvValid_iff _ _).1 hv).2.1
          have hsplit := SplitN_mk _ value hx
          have hraw : ∃ e1 ∈ raw, entryKey e1 = some key := by
            obtain ⟨hm6, hne0⟩ := mem_Environ.1 hm5
            rcases mem_copyenvFrom hm6 with h | h
            · exact absurd h hne0
            · exact ⟨e0, h, (SplitN_eq_pair hs).1⟩
          obtain ⟨e1, hm7, hk7⟩ := hraw
          have hnp : HasPrefix (sliceFrom key (P.length + 1)) (P ++ "_") = false := by
            cases hh : HasPrefix (sliceFrom key (P.length + 1)) (P ++ "_") with
            | false => rfl
            | true =>
              rw [← length_underscore] at hh
              have := HasPrefix_nested hp hh
              rw [hnest e1 hm7 key hk7] at this
              exact absurd this (by simp)
          simp [entryOK, hsplit, hnp]
      · have hx := ((setenvValid_iff _ _).1 hvalid).2.1
        simp [entryOK, SplitN_mk _ v hx, exportNames_not_prefixed P hPcases k2 hk2]
  obtain ⟨q2, hq2⟩ := hok
  -- lookups after the loop of the second run
  have hlook2 := exportEnv_lookup (UniqueKeys_copyenv _) hq2
  simp only [hsame] at hlook2
  have hparse2 : Parse q2.envs = .ok c2 := by
    rw [← h2]
    apply Parse_congr
    intro k hk
    have hk2 : k ∉ exportNames := by revert k; decide
    rw [hlook2 k, hlookX _ (hpref k), hlookX k hk2, hlook1 (P ++ "_" ++ k), hnone k, hlook1 k]
    cases LookupEnv raw (P ++ "_" ++ k) <;> rfl
  exact init_of_steps order2 _ hparse hq2 hparse2

/-- Witness of `init_twice`: a `production` run with an override of
`region`. -/
theorem init_twice_witness :
    (init exportNames (Environ (init exportNames ["projectName=acme", "alertEmail=a@x.com",
        "CIRCLE_BRANCH=production", "region=us-east-2",
        "PRODUCTION_region=eu-west-1"]).proc.envs)).value?
      = some (acmeConfig "production" "eu-west-1") :=
  init_twice exportNames exportNames ["projectName=acme", "alertEmail=a@x.com",
      "CIRCLE_BRANCH=production", "region=us-east-2", "PRODUCTION_region=eu-west-1"]
    (acmeConfig "production" "eu-west-1") (acmeConfig "production" "us-east-2")
    (by decide) (by decide) (by decide) (by decide)

/-- C7, counterexample: with `DEVELOPMENT_DEVELOPMENT_region=eu-west-1` the
first run returns a record with the default region, and a second run on the
environment it leaves returns a record with region `eu-west-1`. -/
theorem init_twice_differs :
    (init exportNames ["projectName=acme", "alertEmail=a@x.com",
        "DEVELOPMENT_DEVELOPMENT_region=eu-west-1"]).value?
      = some (acmeConfig "development" "us-east-1") ∧
    (init exportNames (Environ (init exportNames ["projectName=acme", "alertEmail=a@x.com",
        "DEVELOPMENT_DEVELOPMENT_region=eu-west-1"]).proc.envs)).value?
      = some (acmeConfig "development" "eu-west-1") := by
  decide

/-! ## C9: what is printed -/

theorem splitChars_ne_nil (sep : Char) (cs : List Char) : splitChars sep cs ≠ [] := by
  induction cs with
  | nil => simp [splitChars]
  | cons c cs ih =>
    unfold splitChars
    by_cases h : c = sep
    · simp [h]
    · simp only [h, if_false]
      cases hs : splitChars sep cs with
      | nil => simp
      | cons w ws => simp

theorem joinChars_cons_cons (sep c : Char) (w : List Char) (ws : List (List Char)) :
    joinChars sep ((c :: w) :: ws) = c :: joinChars sep (w :: ws) := by
  cases ws with
  | nil => simp [joinChars]
  | cons w2 ws => simp [joinChars]

theorem joinChars_splitChars (sep : Char) (cs : List Char) :
    joinChars sep (splitChars sep cs) = cs := by
  induction cs with
  | nil => simp [splitChars, joinChars]
  | cons c cs ih =>
    unfold splitChars
    by_cases h : c = sep
    · simp only [h, if_true]
      cases hs : splitChars sep cs with
      | nil => exact absurd hs (splitChars_ne_nil sep cs)
      | cons w ws =>
        rw [hs] at ih
        simp [joinChars, ih]
    · simp only [h, if_false]
      cases hs : splitChars sep cs with
      | nil => exact absurd hs (splitChars_ne_nil sep cs)
      | cons w ws =>
        rw [hs] at ih
        simp only
        rw [joinChars_cons_cons, ih]

theorem Join_Split (s : String) : Join (Split s) = s := by
  unfold Join Split
  apply String.ext
  simp only [List.map_map]
  have : (String.data ∘ String.mk) = id := by funext x; rfl
  rw [this, List.map_id, joinChars_splitChars]

/-- The list written to `TF_VAR_secops_accounts` joins back to the value of
`secopsAccounts`. -/
theorem Join_parsed (envs : List String) :
    Join (parsedRecord envs).SecOpsAccountIDs = getOr envs "secopsAccounts" "" := by
  simp only [parsedRecord]
  by_cases h : getOr envs "secopsAccounts" "" = ""
  · simp only [h, if_true]; rfl
  · simp only [h, if_false, Join_Split]

theorem sameShape_iff {e1 e2 : String} :
    sameShape e1 e2 = true ↔
      ∃ k v1 v2, SplitN e1 = [k, v1] ∧ SplitN e2 = [k, v2] ∧ len v1 = len v2 := by
  unfold sameShape
  constructor
  · intro h
    split at h
    · rename_i k1 v1 k2 v2 h1 h2
      simp only [Bool.and_eq_true, beq_iff_eq] at h
      obtain ⟨rfl, hl⟩ := h
      exact ⟨k1, v1, v2, h1, h2, hl⟩
    · simp at h
  · rintro ⟨k, v1, v2, h1, h2, hl⟩
    simp [h1, h2, hl]

theorem sameShape_mk (k v1 v2 : String) (hk : '=' ∉ k.data) (hl : len v1 = len v2) :
    sameShape (k ++ "=" ++ v1) (k ++ "=" ++ v2) = true :=
  sameShape_iff.2 ⟨k, v1, v2, SplitN_mk k v1 hk, SplitN_mk k v2 hk, hl⟩

theorem blockRel_key {e1 e2 : String} (h : blockRel e1 e2) : entryKey e1 = entryKey e2 := by
  rcases h with ⟨rfl, rfl⟩ | h
  · rfl
  · obtain ⟨k, v1, v2, h1, h2, -⟩ := sameShape_iff.1 h
    rw [(SplitN_eq_pair h1).1, (SplitN_eq_pair h2).1]

theorem blockRel_value {e1 e2 : String} (h : blockRel e1 e2) :
    lenRel (entryValue e1) (entryValue e2) := by
  rcases h with ⟨rfl, rfl⟩ | h
  · have : entryValue "" = none := by decide
    rw [this]; trivial
  · obtain ⟨k, v1, v2, h1, h2, hl⟩ := sameShape_iff.1 h
    rw [(SplitN_eq_pair h1).2.1, (SplitN_eq_pair h2).2.1]
    exact hl

theorem sameShape_ne_empty {e1 e2 : String} (h : sameShape e1 e2 = true) :
    e1 ≠ "" ∧ e2 ≠ "" := by
  obtain ⟨k, v1, v2, h1, h2, -⟩ := sameShape_iff.1 h
  constructor
  · rintro rfl
    have := (SplitN_eq_pair h1).1
    rw [entryKey_empty] at this
    exact absurd this (by simp)
  · rintro rfl
    have := (SplitN_eq_pair h2).1
    rw [entryKey_empty] at this
    exact absurd this (by simp)

theorem sameShapes_forall {r1 r2 : List String} (h : sameShapes r1 r2 = true) :
    List.Forall₂ (fun a b => sameShape a b = true) r1 r2 := by
  induction r1 generalizing r2 with
  | nil =>
    cases r2 with
    | nil => exact List.Forall₂.nil
    | cons b r2 => simp [sameShapes] at h
  | cons a r1 ih =>
    cases r2 with
    | nil => simp [sameShapes] at h
    | cons b r2 =>
      simp only [sameShapes, Bool.and_eq_true] at h
      exact List.Forall₂.cons h.1 (ih h.2)

theorem copyenvFrom_rel (seen : List String) {r1 r2 : List String}
    (h : List.Forall₂ blockRel r1 r2) :
    List.Forall₂ blockRel (copyenvFrom seen r1) (copyenvFrom seen r2) := by
  induction h generalizing seen with
  | nil => exact List.Forall₂.nil
  | @cons a b l1 l2 hab _ ih =>
    have hk := blockRel_key hab
    unfold copyenvFrom
    rw [← hk]
    cases hs : entryKey a with
    | none => exact List.Forall₂.cons hab (ih seen)
    | some k =>
      simp only
      by_cases hm : k ∈ seen
      · simp only [hm, if_true]
        exact List.Forall₂.cons (Or.inl ⟨rfl, rfl⟩) (ih seen)
      · simp only [hm, if_false]
        exact List.Forall₂.cons hab (ih _)

theorem Environ_rel {l1 l2 : List String} (h : List.Forall₂ blockRel l1 l2) :
    List.Forall₂ (fun a b => sameShape a b = true) (Environ l1) (Environ l2) := by
  unfold Environ
  induction h with
  | nil => exact List.Forall₂.nil
  | cons hab _ ih =>
    rcases hab with ⟨rfl, rfl⟩ | hab
    · simpa [List.filter] using ih
    · obtain ⟨h1, h2⟩ := sameShape_ne_empty hab
      have e1 : ∀ s : String, s ≠ "" → (s != "") = true := by intro s hs; simp [hs]
      simp only [List.filter, e1 _ h1, e1 _ h2]
      exact List.Forall₂.cons hab ih

theorem setEntry_rel {key kv1 kv2 : String} (hkv : blockRel kv1 kv2) {l1 l2 : List String}
    (h : List.Forall₂ blockRel l1 l2) :
    List.Forall₂ blockRel (setEntry key kv1 l1) (setEntry key kv2 l2) := by
  induction h with
  | nil => exact List.Forall₂.cons hkv List.Forall₂.nil
  | cons hab hrest ih =>
    have hk := blockRel_key hab
    unfold setEntry
    rw [← hk]
    split
    · exact List.Forall₂.cons hkv hrest
    · exact List.Forall₂.cons hab ih

theorem findValue_rel (key : String) {l1 l2 : List String} (h : List.Forall₂ blockRel l1 l2) :
    lenRel (findValue key l1) (findValue key l2) := by
  induction h with
  | nil => trivial
  | cons hab _ ih =>
    have hk := blockRel_key hab
    unfold findValue
    rw [← hk]
    split
    · exact blockRel_value hab
    · exact ih

theorem LookupEnv_rel (key : String) {l1 l2 : List String} (h : List.Forall₂ blockRel l1 l2) :
    lenRel (LookupEnv l1 key) (LookupEnv l2 key) := by
  unfold LookupEnv
  split
  · trivial
  · exact findValue_rel key h

theorem getOr_rel (key d : String) {l1 l2 : List String} (h : List.Forall₂ blockRel l1 l2) :
    len (getOr l1 key d) = len (getOr l2 key d) := by
  have := LookupEnv_rel key h
  unfold getOr
  cases h1 : LookupEnv l1 key <;> cases h2 : LookupEnv l2 key <;> simp_all [lenRel]

/-- The loop of `exportEnv` on two snapshots of the same shape, from blocks of
the same shape and the same text printed so far: when both end without error,
they have printed the same text and left blocks of the same shape. -/
theorem exportEnvLoop_rel (env : String) {s1 s2 : List String}
    (hs : List.Forall₂ (fun a b => sameShape a b = true) s1 s2) (p1 p2 q1 q2 : Proc)
    (hp : List.Forall₂ blockRel p1.envs p2.envs) (hout : p1.stdout = p2.stdout)
    (h1 : exportEnvLoop env s1 p1 = .ok none q1) (h2 : exportEnvLoop env s2 p2 = .ok none q2) :
    q1.stdout = q2.stdout ∧ List.Forall₂ blockRel q1.envs q2.envs := by
  induction hs generalizing p1 p2 with
  | nil =>
    simp only [exportEnvLoop, Result.ok.injEq, true_and] at h1 h2
    subst h1 h2
    exact ⟨hout, hp⟩
  | @cons a b l1 l2 hab _ ih =>
    obtain ⟨k, v1, v2, ha, hb, hl⟩ := sameShape_iff.1 hab
    cases hpre : HasPrefix k (env ++ "_") with
    | false =>
      rw [exportEnvLoop_skip _ _ ha hpre] at h1
      rw [exportEnvLoop_skip _ _ hb hpre] at h2
      exact ih p1 p2 hp hout h1 h2
    | true =>
      cases hs1 : Setenv (sliceFrom k (env.length + 1)) v1 p1.envs with
      | error err => simp [exportEnvLoop_fail _ _ ha hpre hs1] at h1
      | ok e1 =>
        cases hs2 : Setenv (sliceFrom k (env.length + 1)) v2 p2.envs with
        | error err => simp [exportEnvLoop_fail _ _ hb hpre hs2] at h2
        | ok e2 =>
          rw [exportEnvLoop_set _ _ ha hpre hs1] at h1
          rw [exportEnvLoop_set _ _ hb hpre hs2] at h2
          obtain ⟨hv1, rfl⟩ := Setenv_eq_ok hs1
          obtain ⟨hv2, rfl⟩ := Setenv_eq_ok hs2
          have hx := ((setenvValid_iff _ _).1 hv1).2.1
          refine ih _ _ ?_ ?_ h1 h2
          · exact setEntry_rel (Or.inr (sameShape_mk _ _ _ hx hl)) hp
          · simp only [Proc.print, hout, hl]

/-- What `config.Export` prints is fixed by the order of the visit and the
lengths of the values. -/
theorem Export_stdout (c1 c2 : config) (order : List String) (p1 p2 : Proc)
    (hout : p1.stdout = p2.stdout)
    (hv : ∀ k, lenRel (c1.vars.lookup k) (c2.vars.lookup k)) :
    (c1.Export order p1).stdout = (c2.Export order p2).stdout := by
  unfold config.Export
  induction order generalizing p1 p2 with
  | nil => exact hout
  | cons k ks ih =>
    simp only [List.foldl_cons]
    apply ih
    have := hv k
    unfold exportStep
    cases h1 : c1.vars.lookup k <;> cases h2 : c2.vars.lookup k <;>
      simp_all [lenRel, Proc.print]

theorem lookup_rel (k : String) {l1 l2 : List (String × String)}
    (h : List.Forall₂ (fun x y => x.1 = y.1 ∧ len x.2 = len y.2) l1 l2) :
    lenRel (l1.lookup k) (l2.lookup k) := by
  induction h with
  | nil => trivial
  | @cons x y r1 r2 hxy _ ih =>
    obtain ⟨a, b⟩ := x
    obtain ⟨a2, b2⟩ := y
    obtain ⟨rfl, hl⟩ := hxy
    simp only [List.lookup]
    cases k == a with
    | true => exact hl
    | false => exact ih

theorem normalise_vars (c : config) :
    (normalise c).vars = ("TF_VAR_env", (normalise c).AppEnv) :: c.vars.tail := by
  unfold normalise
  split <;> rfl

theorem EqualFold_normalise (c : config) :
    EqualFold (normalise c).AppEnv "production" = EqualFold c.AppEnv "production" := by
  unfold normalise
  cases h : EqualFold c.AppEnv "production" with
  | true => simp [h]
  | false =>
    simp only [h, Bool.not_false, if_true]
    decide

theorem ToUpper_normalise_eq (c : config) :
    ToUpper (normalise c).AppEnv =
      if EqualFold (normalise c).AppEnv "production" = true then "PRODUCTION"
      else "DEVELOPMENT" := by
  rcases normalise_AppEnv c with h | h
  · rw [h]; decide
  · rw [ToUpper_of_fold h.1, h.1]; rfl

theorem normalise_len_AppEnv {c1 c2 : config}
    (hl : len c1.AppEnv = len c2.AppEnv)
    (hf : EqualFold (normalise c1).AppEnv "production"
      = EqualFold (normalise c2).AppEnv "production") :
    len (normalise c1).AppEnv = len (normalise c2).AppEnv := by
  rw [EqualFold_normalise, EqualFold_normalise] at hf
  unfold normalise
  cases h1 : EqualFold c1.AppEnv "production" <;> cases h2 : EqualFold c2.AppEnv "production"
  · simp
  · rw [h1, h2] at hf; exact absurd hf (by simp)
  · rw [h1, h2] at hf; exact absurd hf (by simp)
  · simpa using hl

/-- The log lines carry names and lengths only: for two environments with
the same variable names in the same order and values of pairwise equal length,
on which `init` returns after taking the same branches (the same outcome of
the `production` test in the first pass and in the second pass) and visiting
the map of `config.Export` in the same order, the text printed by `exportEnv`
and by `config.Export` is the same. -/
theorem init_prints_lengths (order raw1 raw2 : List String) (c1 c2 a1 a2 : config)
    (hs : sameShapes raw1 raw2 = true)
    (h1 : (init order raw1).value? = some c1) (h2 : (init order raw2).value? = some c2)
    (hf1 : firstPass raw1 = .ok a1) (hf2 : firstPass raw2 = .ok a2)
    (hfirst : EqualFold a1.AppEnv "production" = EqualFold a2.AppEnv "production")
    (hsecond : EqualFold c1.AppEnv "production" = EqualFold c2.AppEnv "production") :
    (init order raw1).proc.stdout = (init order raw2).proc.stdout := by
  obtain ⟨x0, p1, x2, hx0, hxe, hx2, rfl, -, hxi⟩ := init_eq_ok h1
  obtain ⟨y0, p2, y2, hy0, hye, hy2, rfl, -, hyi⟩ := init_eq_ok h2
  obtain ⟨x0b, hx0b, rfl⟩ := firstPass_eq_ok hf1
  obtain ⟨y0b, hy0b, rfl⟩ := firstPass_eq_ok hf2
  rw [hx0] at hx0b
  rw [hy0] at hy0b
  cases hx0b
  cases hy0b
  rw [hxi, hyi]
  simp only [Result.proc]
  -- the blocks after `copyenv` have the same shape
  have hraw : List.Forall₂ blockRel raw1 raw2 :=
    List.Forall₂.imp (fun _ _ h => Or.inr h) (sameShapes_forall hs)
  have hblock : List.Forall₂ blockRel (copyenv raw1) (copyenv raw2) := copyenvFrom_rel [] hraw
  -- both runs use the same prefix
  have hpre : ToUpper (normalise x0).AppEnv = ToUpper (normalise y0).AppEnv := by
    rw [ToUpper_normalise_eq, ToUpper_normalise_eq, hfirst]
  unfold exportEnv at hxe hye
  simp only [hpre] at hxe
  simp only at hxe hye
  obtain ⟨hout, hq⟩ := exportEnvLoop_rel _ (Environ_rel hblock)
    { envs := copyenv raw1, stdout := "" } { envs := copyenv raw2, stdout := "" }
    p1 p2 hblock rfl hxe hye
  -- the records of the second pass have fields of the same lengths
  have ex := Parse_eq_ok hx2
  have ey := Parse_eq_ok hy2
  apply Export_stdout _ _ _ _ _ hout
  intro k
  apply lookup_rel
  rw [normalise_vars, normalise_vars]
  have happ : len (normalise x2).AppEnv = len (normalise y2).AppEnv := by
    apply normalise_len_AppEnv _ hsecond
    rw [ex, ey]
    exact getOr_rel "CIRCLE_BRANCH" "sandbox" hq
  have hsec : len (Join x2.SecOpsAccountIDs) = len (Join y2.SecOpsAccountIDs) := by
    rw [ex, ey, Join_parsed, Join_parsed]
    exact getOr_rel "secopsAccounts" "" hq
  have hmail : len x2.AlertEmail = len y2.AlertEmail := by
    rw [ex, ey]; exact getOr_rel "alertEmail" "" hq
  have hproj : len x2.ProjectName = len y2.ProjectName := by
    rw [ex, ey]; exact getOr_rel "projectName" "" hq
  have hreg : len x2.Region = len y2.Region := by
    rw [ex, ey]; exact getOr_rel "region" "us-east-1" hq
  have hsaml : len x2.SamlProviderArn = len y2.SamlProviderArn := by
    rw [ex, ey]; exact getOr_rel "SAML_PROVIDER_ARN" "" hq
  simp only [config.vars, List.tail_cons]
  exact List.Forall₂.cons ⟨rfl, happ⟩ (List.Forall₂.cons ⟨rfl, hmail⟩
    (List.Forall₂.cons ⟨rfl, hproj⟩ (List.Forall₂.cons ⟨rfl, hreg⟩
    (List.Forall₂.cons ⟨rfl, hsec⟩ (List.Forall₂.cons ⟨rfl, hsaml⟩
    (List.Forall₂.cons ⟨rfl, hreg⟩ List.Forall₂.nil))))))

/-- An instance of `init_prints_lengths`: two environments that differ in the
contents of the e-mail address and of an overriding region. -/
theorem init_prints_lengths_witness :
    (init exportNames ["projectName=acme", "alertEmail=a@x.com",
        "DEVELOPMENT_region=eu-west-1"]).proc.stdout =
    (init exportNames ["projectName=acme", "alertEmail=b@y.org",
        "DEVELOPMENT_region=us-west-2"]).proc.stdout :=
  init_prints_lengths exportNames
    ["projectName=acme", "alertEmail=a@x.com", "DEVELOPMENT_region=eu-west-1"]
    ["projectName=acme", "alertEmail=b@y.org", "DEVELOPMENT_region=us-west-2"]
    (acmeConfig "development" "eu-west-1")
    { acmeConfig "development" "us-west-2" with AlertEmail := "b@y.org" }
    (acmeConfig "development" "us-east-1")
    { acmeConfig "development" "us-east-1" with AlertEmail := "b@y.org" }
    (by decide) (by decide) (by decide) (by decide) (by decide) (by decide) (by decide)

/-- C9, failing input: two environments with the same names and values of
equal length, `DEVELOPMENT_=alpha` in one and `DEVELOPMENT_=omega` in the
other; both are stopped by the same error of `exportEnv` on that entry, and
the text `init` prints for the error quotes the entry with its value, so the
two texts differ in the contents of a value. -/
theorem init_error_prints_value :
    sameShapes ["projectName=acme", "alertEmail=a@x.com", "DEVELOPMENT_=alpha"]
      ["projectName=acme", "alertEmail=a@x.com", "DEVELOPMENT_=omega"] = true ∧
    init exportNames ["projectName=acme", "alertEmail=a@x.com", "DEVELOPMENT_=alpha"] =
      .exit statusBadEnv
        { envs := ["projectName=acme", "alertEmail=a@x.com", "DEVELOPMENT_=alpha"],
          stdout := "failed to read DEVELOPMENT_=alpha, when setting : setenv: invalid argument\n" } ∧
    init exportNames ["projectName=acme", "alertEmail=a@x.com", "DEVELOPMENT_=omega"] =
      .exit statusBadEnv
        { envs := ["projectName=acme", "alertEmail=a@x.com", "DEVELOPMENT_=omega"],
          stdout := "failed to read DEVELOPMENT_=omega, when setting : setenv: invalid argument\n" } ∧
    (init exportNames ["projectName=acme", "alertEmail=a@x.com", "DEVELOPMENT_=alpha"]).proc.stdout ≠
      (init exportNames ["projectName=acme", "alertEmail=a@x.com", "DEVELOPMENT_=omega"]).proc.stdout := by
  decide





end Magefile
